import Mathlib

/-!
# tcpdumplocator: a shallow embedding of `tcpdumplocator.go`

The program reads tcpdump output, digs IPv4-looking substrings out of every
line, drops those matching an ignore pattern, counts the others in the
process-wide map `seenIPs` and logs a geolocation line when the count of an
address equals `-p` (`printAfter`).

Conventions of the embedding

* Process-wide variables (`seenIPs`, `lastPrinted`) are the fields of `Globals`,
  passed explicitly.  Flags are the fields of `Flags`.
* Every `time.Now()` is an input: the three readings that one call of
  `seen_addr` can make are the fields of `Clock`.
* A run-time panic (the index expression `ks[0]` in `getEN` on an empty
  string) is the result `none` of `getEN`; it ends the process, which the
  `panicked` field of `Outcome` records.
* `log.Printf` calls are collected, in order, as `Event.Printf` entries of the
  outcome; entering `print_addr` leaves an `Event.print_addr` entry.
* The geolocation library and the regular-expression library are not part of
  the program; the lookup is a function parameter, the regular expressions
  are given a small executable semantics further down.
-/

namespace Tcpdumplocator

/-! ## Times, flags, records -/

/-- A `time.Time` obtained from `time.Now()`: nanoseconds on the monotonic
clock of the process. -/
abbrev Time := Int

/-- A `time.Duration`: a signed number of nanoseconds. -/
abbrev Duration := Int

/-- The method `t.Sub(u)`, the duration `t - u`.  The readings of the clock of
one process lie far within the range of a duration, so the result is the
exact difference. -/
def Time.Sub (t u : Time) : Duration := t - u

/-- The command-line flags read by the tracker: `-p` (`printAfter`, an `int`,
default 32), `-t` (`timeoff`, a duration, default two seconds), `-x`
(`ignore`, the comma-separated list of expressions) and `-g` (`dbfile`).
`flag.Int` and `flag.Duration` accept any value, negative ones included. -/
structure Flags where
  dbfile : String
  printAfter : Int
  ignore : String
  timeoff : Duration

/-- The struct `seenIP`, an IP address we have seen.  `nSeen` is a Go `int`;
it grows by one per observation, so sixty-four bits are not exhausted and it
is an unbounded integer here. -/
structure seenIP where
  addr : String
  nSeen : Int
  lastSeen : Time
deriving DecidableEq

/-- The process-wide variables the tracker mutates: the map `seenIPs`
(a finite map, here a function to `Option`) and `lastPrinted`. -/
structure Globals where
  seenIPs : String → Option seenIP
  lastPrinted : String

/-- The variables as initialised by the `var` block: an empty map and the
empty string. -/
def Globals.init : Globals := ⟨fun _ => none, ""⟩

/-- The readings of `time.Now()` made by one call of `seen_addr`: `atNew` when
a fresh record is built (read only for an address not yet in the map),
`atCheck` in the staleness comparison, `atStore` for the new `lastSeen`. -/
structure Clock where
  atNew : Time
  atCheck : Time
  atStore : Time

/-- A call of `seen_addr` during which the clock does not advance. -/
def Clock.instant (t : Time) : Clock := ⟨t, t, t⟩

/-! ## The geolocation record -/

/-- A Go `map[string]string` of names by language.  The list holds each key
once; its order is the order in which a `range` loop visits the map. -/
abbrev Names := List (String × String)

/-- Modelled from the spec: the part `record.Country` of the record type of the
geolocation library, which is not part of the program's source: the ISO code
and the multi-language country name mapping. -/
structure CountryRec where
  IsoCode : String
  Names : Names

/-- Modelled from the spec: the part `record.City`, the multi-language city
name mapping. -/
structure CityRec where
  Names : Names

/-- Modelled from the spec: one element of `record.Subdivisions`, with its
multi-language name mapping. -/
structure SubdivisionRec where
  Names : Names

/-- Modelled from the spec: the part `record.Traits`, the anonymous-proxy
flag. -/
structure TraitsRec where
  IsAnonymousProxy : Bool

/-- Modelled from the spec: the record returned by a successful lookup, with the
fields `print_addr` reads. -/
structure GeoRecord where
  Country : CountryRec
  City : CityRec
  Subdivisions : List SubdivisionRec
  Traits : TraitsRec

/-- Modelled from the spec: the lookup `geodb.City(net.ParseIP(a))` as a function
of the address text, returning a record or an error, the error being given by
its description `err.Error()`. -/
abbrev Lookup := String → Except String GeoRecord

/-! ## Name resolution: `getEN` -/

/-- The function `strings.TrimSpace`, on text whose white space is ASCII. -/
def TrimSpace (s : String) : String :=
  String.mk (((s.data.dropWhile Char.isWhitespace).reverse.dropWhile Char.isWhitespace).reverse)

/-- The function `strings.ToLower`, on ASCII text. -/
def ToLower (s : String) : String := String.mk (s.data.map Char.toLower)

/-- The built-in `len` of a string: its number of bytes. -/
def len (s : String) : Nat := s.utf8ByteSize

/-- The index expression `m[k]` with the comma-ok form. -/
def mapGet (m : Names) (k : String) : Option String := m.lookup k

/-- First loop of `getEN`: the languages tried in order; `some v` is the
`return v` of the loop, `none` means the loop ran to its end. -/
def getEN.preferred (m : Names) : List String → Option String
  | [] => none
  | l :: ls =>
    let l := ToLower (TrimSpace l)
    if 0 = len l then getEN.preferred m ls
    else
      match mapGet m (TrimSpace (ToLower l)) with
      | some v => some v
      | none => getEN.preferred m ls

/-- Second loop of `getEN`: `ks` collects `"|" + k` for every key and `name`
keeps a value strictly longer than the one held so far. -/
def getEN.collect : Names → String × String → String × String
  | [], acc => acc
  | (k, v) :: rest, (ks, name) =>
    getEN.collect rest (ks ++ ("|" ++ k), if len v > len name then v else name)

/-- Third loop of `getEN`: `for '|' == ks[0] { ks = ks[1:len(ks)] }`.  The
index expression panics on the empty string: `none`. -/
def getEN.strip : List Char → Option (List Char)
  | [] => none
  | c :: cs => if c = '|' then getEN.strip cs else some (c :: cs)

/-- The function `getEN`: the English (or other language) value in the map,
and failing that something else.  `none` is the run-time panic of the
stripping loop. -/
def getEN (m : Names) : Option String :=
  match getEN.preferred m ["en", "es", "fr", "de"] with
  | some v => some v
  | none =>
    let (ks, name) := getEN.collect m ("", "")
    if 0 = len ks then some "Missing"
    else
      match getEN.strip ks.data with
      | none => none
      | some ks => some ("[" ++ String.mk ks ++ "]" ++ name)

/-! ## The emitter: `print_addr` -/

/-- What a call leaves behind, in order: `print_addr a` marks the entry into
`print_addr(a)`; `Printf a geoinfo` is the call
`log.Printf("%15v  %v\n", a, geoinfo)` with its two arguments. -/
inductive Event where
  | print_addr (a : String)
  | Printf (a geoinfo : String)
deriving DecidableEq

/-- Result of a call: the variables afterwards, the events in order and
whether the call ended in a run-time panic (which ends the process). -/
structure Outcome where
  st : Globals
  events : List Event
  panicked : Bool

/-- The verb `%15v` on a string: spaces in front up to a width of fifteen
characters, the string itself when it is longer. -/
def pad15 (a : String) : String := String.mk (List.replicate (15 - a.length) ' ') ++ a

/-- The text `fmt.Sprintf("%15v  %v\n", a, geoinfo)` that `log.Printf` hands to
the logger (which writes the date and time in front of it). -/
def Event.text : Event → Option String
  | .print_addr _ => none
  | .Printf a geoinfo => some (pad15 a ++ "  " ++ geoinfo ++ "\n")

/-- The loop `for _, v := range subdivision { s += getEN(v.Names) }`. -/
def geoinfo.subdivisions : List SubdivisionRec → String → Option String
  | [], s => some s
  | v :: vs, s =>
    match getEN v.Names with
    | none => none
    | some n => geoinfo.subdivisions vs (s ++ n)

/-- The value of the variable `geoinfo` of `print_addr` when the `log.Printf`
statement is reached, as a function of the result `record, err` of the lookup;
`none` when a call of `getEN` panics on the way. -/
def geoinfo (res : Except String GeoRecord) : Option String :=
  match res with
  | .error err => some err
  | .ok record =>
    if record.Traits.IsAnonymousProxy then some "Anonymous Proxy"
    else if "" = record.Country.IsoCode then some "Countryless"
    else
      let subdivision := record.Subdivisions
      let s :=
        if 0 = subdivision.length then some "No Subdivision (State)"
        else geoinfo.subdivisions subdivision ""
      match s with
      | none => none
      | some s =>
        match getEN record.Country.Names with
        | none => none
        | some country =>
          match getEN record.City.Names with
          | none => none
          | some city =>
            some (record.Country.IsoCode ++ ", " ++ country ++ ", " ++ s ++ ", " ++ city)

/-- The function `print_addr`: log an address with geo info, unless it is the
last one logged. -/
def print_addr (City : Lookup) (g : Globals) (a : String) : Outcome :=
  if a = g.lastPrinted then ⟨g, [.print_addr a], false⟩
  else
    match geoinfo (City a) with
    | none => ⟨g, [.print_addr a], true⟩
    | some s => ⟨{ g with lastPrinted := a }, [.print_addr a, .Printf a s], false⟩

/-! ## The tracker: `seen_addr` -/

/-- The record `r` of `seen_addr` when it is stored back into the map
(the statements from the map read to `r.lastSeen = time.Now()`). -/
def seen_addr.record (fl : Flags) (g : Globals) (a : String) (c : Clock) : seenIP :=
  let r : seenIP :=
    match g.seenIPs a with
    | some r => r
    | none => { addr := a, nSeen := 0, lastSeen := c.atNew }
  let r := { r with nSeen := r.nSeen + 1 }
  let r := if fl.timeoff < c.atCheck.Sub r.lastSeen then { r with nSeen := 0 } else r
  { r with lastSeen := c.atStore }

/-- The function `seen_addr`: handle an address we have seen. -/
def seen_addr (fl : Flags) (City : Lookup) (g : Globals) (a : String) (c : Clock) : Outcome :=
  let r := seen_addr.record fl g a c
  let g := { g with seenIPs := Function.update g.seenIPs a (some r) }
  if fl.printAfter = r.nSeen then print_addr City g a else ⟨g, [], false⟩

/-- Successive calls of `seen_addr`, one per observation (address and clock
readings), as made by the loops of `mymain`; a panic ends the process, the
later observations are not handled. -/
def seen_addrs (fl : Flags) (City : Lookup) : Globals → List (String × Clock) → Outcome
  | g, [] => ⟨g, [], false⟩
  | g, (a, c) :: rest =>
    let o := seen_addr fl City g a c
    if o.panicked then o
    else
      let o2 := seen_addrs fl City o.st rest
      ⟨o2.st, o.events ++ o2.events, o2.panicked⟩

/-- The addresses logged, in order: the first argument of every `log.Printf`
call among the events. -/
def emitted : List Event → List String
  | [] => []
  | .print_addr _ :: es => emitted es
  | .Printf a _ :: es => a :: emitted es

/-- The count stored for an address, if it is in the map. -/
def Globals.count (g : Globals) (a : String) : Option Int := (g.seenIPs a).map seenIP.nSeen

/-! ## Regular expressions

The package `regexp` of the Go library is not part of the program.  What
follows models the part of it the program relies on: the syntax read by
`regexp.Compile` (literals, `\d`, escaped punctuation, `.`, `^`, `$`,
groups, `|`, the greedy operators `*`, `+`, `?` and `{n,m}`), the search
`MatchString` and the leftmost-first `FindAllString`.  Positions count
characters. -/

/-- A parsed regular expression. -/
inductive Regexp where
  | emptyMatch
  | literal (c : Char)
  | anyCharNotNL
  | digit
  | beginText
  | endText
  | concat (r s : Regexp)
  | alternate (r s : Regexp)
  | star (r : Regexp)
  | plus (r : Regexp)
  | quest (r : Regexp)
  | rep (r : Regexp) (min : Nat) (max : Option Nat)
deriving DecidableEq

namespace Regexp

/-- One level of grouping during parsing: the alternatives finished so far and
the pieces of the concatenation being read (both most recent first), and
whether the last piece is the result of a repetition operator. -/
structure Frame where
  alts : List Regexp
  cur : List Regexp
  afterRepeat : Bool

/-- The concatenation of pieces held most recent first. -/
def mkConcat : List Regexp → Regexp
  | [] => .emptyMatch
  | [r] => r
  | r :: rs => .concat (mkConcat rs) r

/-- The alternation of alternatives held most recent first. -/
def mkAlternate : List Regexp → Regexp
  | [] => .emptyMatch
  | [r] => r
  | r :: rs => .alternate (mkAlternate rs) r

/-- The expression a frame stands for when its group ends. -/
def Frame.close (f : Frame) : Regexp := mkAlternate (mkConcat f.cur :: f.alts)

/-- A decimal number, `none` unless the text is a non-empty run of digits
without a zero in front of another digit. -/
def number (cs : List Char) : Option Nat :=
  if cs ≠ [] ∧ cs.all Char.isDigit ∧ ¬ (2 ≤ cs.length ∧ cs.head? = some '0') then
    some (cs.foldl (fun n c => 10 * n + (c.toNat - '0'.toNat)) 0)
  else none

/-- The bounds written between braces: `n`, `n,` or `n,m`, none above 1000. -/
def bounds (cs : List Char) : Option (Nat × Option Nat) :=
  match cs.span (· ≠ ',') with
  | (lo, []) =>
    match number lo with
    | some n => if n ≤ 1000 then some (n, some n) else none
    | none => none
  | (lo, _ :: []) =>
    match number lo with
    | some n => if n ≤ 1000 then some (n, none) else none
    | none => none
  | (lo, _ :: hi) =>
    match number lo, number hi with
    | some n, some m => if n ≤ m ∧ m ≤ 1000 then some (n, some m) else none
    | _, _ => none

/-- Apply a repetition operator to the last piece of the frame; `none` when
there is no piece to repeat or when the piece is itself a repetition. -/
def Frame.repetition (f : Frame) (op : Regexp → Regexp) : Option Frame :=
  match f.cur with
  | [] => none
  | r :: rs => if f.afterRepeat then none else some ⟨f.alts, op r :: rs, true⟩

/-- Whether the repetitions nested in an expression stay within `n` copies of
the innermost thing (the check `repeatIsValid` of the library's parser). -/
def repeatIsValid : Regexp → Nat → Bool
  | .rep r lo hi, n =>
    if hi = some 0 then true
    else
      let m := hi.getD lo
      if n < m then false
      else repeatIsValid r (if 0 < m then n / m else n)
  | .concat r s, n => repeatIsValid r n && repeatIsValid s n
  | .alternate r s, n => repeatIsValid r n && repeatIsValid s n
  | .star r, n => repeatIsValid r n
  | .plus r, n => repeatIsValid r n
  | .quest r, n => repeatIsValid r n
  | _, _ => true

/-- Apply the operator `{lo,hi}` to the last piece of the frame; `none` when
there is no piece to repeat, when the piece is itself a repetition, or when
the counts nested in the result exceed 1000 copies. -/
def Frame.counted (f : Frame) (lo : Nat) (hi : Option Nat) : Option Frame :=
  match f.cur with
  | [] => none
  | r :: rs =>
    if f.afterRepeat then none
    else if (2 ≤ lo ∨ 2 ≤ hi.getD 0) ∧ repeatIsValid (.rep r lo hi) 1000 = false then none
    else some ⟨f.alts, .rep r lo hi :: rs, true⟩

/-- Add a piece to the frame. -/
def Frame.push (f : Frame) (r : Regexp) : Frame := ⟨f.alts, r :: f.cur, false⟩

/-- The parser: `stack` holds the frames of the enclosing groups, `f` the
frame of the innermost one, `brace` the text read since an opening brace.
`none` is a syntax error or a construct outside the modelled syntax. -/
def parse : List Char → List Frame → Frame → Option (List Char) → Option Regexp
  | [], [], f, none => some f.close
  | [], _, _, _ => none
  | c :: cs, stack, f, some b =>
    if c = '}' then
      match bounds b.reverse with
      | none => none
      | some (lo, hi) =>
        match f.counted lo hi with
        | none => none
        | some f => parse cs stack f none
    else parse cs stack f (some (c :: b))
  | '\\' :: c :: cs, stack, f, none =>
    if c = 'd' then parse cs stack (f.push .digit) none
    else if c.isAlphanum ∨ 128 ≤ c.toNat then none
    else parse cs stack (f.push (.literal c)) none
  | c :: cs, stack, f, none =>
    if c = '(' then parse cs (f :: stack) ⟨[], [], false⟩ none
    else if c = ')' then
      match stack with
      | [] => none
      | g :: stack => parse cs stack (g.push f.close) none
    else if c = '|' then parse cs stack ⟨mkConcat f.cur :: f.alts, [], false⟩ none
    else if c = '*' then
      match f.repetition .star with
      | none => none
      | some f => parse cs stack f none
    else if c = '+' then
      match f.repetition .plus with
      | none => none
      | some f => parse cs stack f none
    else if c = '?' then
      match f.repetition .quest with
      | none => none
      | some f => parse cs stack f none
    else if c = '{' then parse cs stack f (some [])
    else if c = '.' then parse cs stack (f.push .anyCharNotNL) none
    else if c = '^' then parse cs stack (f.push .beginText) none
    else if c = '$' then parse cs stack (f.push .endText) none
    else if c = '\\' ∨ c = '[' ∨ c = ']' ∨ c = '}' then none
    else parse cs stack (f.push (.literal c)) none

/-- The function `regexp.Compile` on the modelled syntax; `none` for an error,
and also for an expression outside the modelled syntax, on which the model
says nothing.  The library's limits on the overall size and nesting depth of
an expression are not modelled. -/
def Compile (expr : String) : Option Regexp := parse expr.data [] ⟨[], [], false⟩ none

/-- A matcher gives, for a start position, the positions at which a match
starting there can end, the preferred one first. -/
abbrev Matcher := Nat → List Nat

/-- One matcher after the other. -/
def Matcher.seq (m1 m2 : Matcher) : Matcher := fun i => ((m1 i).flatMap m2).eraseDups

/-- The first matcher, else the second. -/
def Matcher.or (m1 m2 : Matcher) : Matcher := fun i => (m1 i ++ m2 i).eraseDups

/-- Exactly `k` times. -/
def Matcher.times (m : Matcher) : Nat → Matcher
  | 0 => fun i => [i]
  | k + 1 => m.seq (m.times k)

/-- At most `k` times, as many as possible first. -/
def Matcher.upTo (m : Matcher) : Nat → Matcher
  | 0 => fun i => [i]
  | k + 1 => (m.seq (m.upTo k)).or (fun i => [i])

/-- Any number of times, as many as possible first; a repetition has to move
forward, so there are at most `fuel` of them in a text of `fuel` characters. -/
def Matcher.many (m : Matcher) : Nat → Matcher
  | 0 => fun i => [i]
  | fuel + 1 => fun i => ((((m i).filter (fun j => i < j)).flatMap (m.many fuel)) ++ [i]).eraseDups

/-- A matcher for one character with a property. -/
def Matcher.char (s : List Char) (p : Char → Bool) : Matcher := fun i =>
  match s.get? i with
  | some c => if p c then [i + 1] else []
  | none => []

/-- The end positions of the matches of an expression in the text `s` from a
start position. -/
def ends (s : List Char) : Regexp → Matcher
  | .emptyMatch => fun i => [i]
  | .literal c => Matcher.char s (fun d => d = c)
  | .anyCharNotNL => Matcher.char s (fun d => d ≠ '\n')
  | .digit => Matcher.char s Char.isDigit
  | .beginText => fun i => if i = 0 then [i] else []
  | .endText => fun i => if i = s.length then [i] else []
  | .concat r1 r2 => (ends s r1).seq (ends s r2)
  | .alternate r1 r2 => (ends s r1).or (ends s r2)
  | .star r => (ends s r).many s.length
  | .plus r => (ends s r).seq ((ends s r).many s.length)
  | .quest r => (ends s r).or (fun i => [i])
  | .rep r lo (some hi) => ((ends s r).times lo).seq ((ends s r).upTo (hi - lo))
  | .rep r lo none => ((ends s r).times lo).seq ((ends s r).many s.length)

/-- The leftmost match starting at `pos` or later, `fuel` start positions
being tried: its start and its preferred end. -/
def search (re : Regexp) (s : List Char) : Nat → Nat → Option (Nat × Nat)
  | 0, _ => none
  | fuel + 1, pos =>
    match ends s re pos with
    | e :: _ => some (pos, e)
    | [] => search re s fuel (pos + 1)

/-- The leftmost match starting at `pos` or later in the text. -/
def find (re : Regexp) (s : List Char) (pos : Nat) : Option (Nat × Nat) :=
  search re s (s.length + 1 - pos) pos

/-- The method `MatchString`: whether the text contains a match. -/
def MatchString (re : Regexp) (s : String) : Bool := (find re s.data 0).isSome

/-- Whether the expression matches the entire text. -/
def matchesWhole (re : Regexp) (s : String) : Bool := (ends s.data re 0).contains s.length

/-- The loop of `FindAllString(s, -1)`: successive non-overlapping matches from
`pos` on; an empty match right after the previous match is passed over. -/
def allMatches (re : Regexp) (s : List Char) : Nat → Nat → Option Nat → List (Nat × Nat)
  | 0, _, _ => []
  | fuel + 1, pos, prevMatchEnd =>
    if pos ≤ s.length then
      match find re s pos with
      | none => []
      | some (b, e) =>
        if e = pos then
          if some b = prevMatchEnd then allMatches re s fuel (pos + 1) (some e)
          else (b, e) :: allMatches re s fuel (pos + 1) (some e)
        else (b, e) :: allMatches re s fuel e (some e)
    else []

/-- The method `FindAllString(s, -1)`: the texts of the successive matches. -/
def FindAllString (re : Regexp) (s : String) : List String :=
  (allMatches re s.data (s.length + 2) 0 none).map
    (fun m => String.mk ((s.data.drop m.1).take (m.2 - m.1)))

end Regexp

/-! ## The main loop -/

/-- The IP address regex, `\d{1,3}\.\d{1,3}\.\d{1,3}\.\d{1,3}`. -/
def ADDRRE : Regexp :=
  .concat (.concat (.concat (.concat (.concat (.concat
    (.rep .digit 1 (some 3)) (.literal '.')) (.rep .digit 1 (some 3))) (.literal '.'))
    (.rep .digit 1 (some 3))) (.literal '.')) (.rep .digit 1 (some 3))

/-- The pieces of a text between the occurrences of a character, most recent
piece `cur` held reversed. -/
def Split.go (sep : Char) : List Char → List Char → List String
  | [], cur => [String.mk cur.reverse]
  | c :: cs, cur =>
    if c = sep then String.mk cur.reverse :: Split.go sep cs [] else Split.go sep cs (c :: cur)

/-- The function `strings.Split` for a separator of one character. -/
def Split (s : String) (sep : Char) : List String := Split.go sep s.data []

/-- The loop of `mymain` that parses the regular expressions of `-x`, for
expressions of the modelled syntax: each is compiled between `^` and `$`;
`none` when one does not compile. -/
def mymain.ignoreRegex : List String → Option (List Regexp)
  | [] => some []
  | ex :: exs =>
    match Regexp.Compile ("^" ++ ex ++ "$") with
    | none => none
    | some r => (mymain.ignoreRegex exs).map (r :: ·)

/-- The inner loop of `ADDRS`: whether an ignore pattern matches the address
(`continue ADDRS`). -/
def mymain.ignored : List Regexp → String → Bool
  | [], _ => false
  | r :: rs, a => if r.MatchString a then true else mymain.ignored rs a

/-- The loop labelled `ADDRS`: every address that no ignore pattern matches is
handed to `seen_addr`; `clock k` gives the clock readings during the `k`-th of
these calls. -/
def mymain.ADDRS (fl : Flags) (City : Lookup) (ignoreRegex : List Regexp) (clock : Nat → Clock) :
    Globals → List String → Nat → Outcome
  | g, [], _ => ⟨g, [], false⟩
  | g, a :: addrs, k =>
    if mymain.ignored ignoreRegex a then mymain.ADDRS fl City ignoreRegex clock g addrs k
    else
      let o := seen_addr fl City g a (clock k)
      if o.panicked then o
      else
        let o2 := mymain.ADDRS fl City ignoreRegex clock o.st addrs (k + 1)
        ⟨o2.st, o.events ++ o2.events, o2.panicked⟩

/-- The body of the loop over the lines of standard input, for the line `l`. -/
def mymain.line (fl : Flags) (City : Lookup) (ignoreRegex : List Regexp) (clock : Nat → Clock)
    (g : Globals) (l : String) : Outcome :=
  let addrs := ADDRRE.FindAllString l
  if 0 = addrs.length then ⟨g, [], false⟩
  else mymain.ADDRS fl City ignoreRegex clock g addrs 0

/-- Observations with their clock readings: the `i`-th address is observed
with the readings `clock (k + i)`. -/
def stamp (clock : Nat → Clock) : Nat → List String → List (String × Clock)
  | _, [] => []
  | k, a :: as => (a, clock k) :: stamp clock (k + 1) as

/-! ## The function `mymain` -/

/-- The variable `geodb` while the lines are read: a reader, given by its
lookup, or the pointer that a failed `geoip2.Open` leaves (`none`), behind
which there is no database. -/
abbrev Reader := Option Lookup

/-- The call `geodb.City(net.ParseIP(a))`.  The geolocation library is not part
of the program's source: its method `City` reads the database through its
receiver, and after a failed `Open` there is none, so the call ends in a nil
pointer dereference, a run-time panic (`none`). -/
def Reader.City (geodb : Reader) (a : String) : Option (Except String GeoRecord) :=
  match geodb with
  | none => none
  | some City => some (City a)

/-- The function `print_addr` for either value of `geodb`. -/
def print_addr.on (geodb : Reader) (g : Globals) (a : String) : Outcome :=
  if a = g.lastPrinted then ⟨g, [.print_addr a], false⟩
  else
    match geodb.City a with
    | none => ⟨g, [.print_addr a], true⟩
    | some res =>
      match geoinfo res with
      | none => ⟨g, [.print_addr a], true⟩
      | some s => ⟨{ g with lastPrinted := a }, [.print_addr a, .Printf a s], false⟩

/-- The function `seen_addr` for either value of `geodb`. -/
def seen_addr.on (fl : Flags) (geodb : Reader) (g : Globals) (a : String) (c : Clock) :
    Outcome :=
  let r := seen_addr.record fl g a c
  let g := { g with seenIPs := Function.update g.seenIPs a (some r) }
  if fl.printAfter = r.nSeen then print_addr.on geodb g a else ⟨g, [], false⟩

/-- The loop labelled `ADDRS` for either value of `geodb`. -/
def mymain.ADDRS.on (fl : Flags) (geodb : Reader) (ignoreRegex : List Regexp)
    (clock : Nat → Clock) : Globals → List String → Nat → Outcome
  | g, [], _ => ⟨g, [], false⟩
  | g, a :: addrs, k =>
    if mymain.ignored ignoreRegex a then mymain.ADDRS.on fl geodb ignoreRegex clock g addrs k
    else
      let o := seen_addr.on fl geodb g a (clock k)
      if o.panicked then o
      else
        let o2 := mymain.ADDRS.on fl geodb ignoreRegex clock o.st addrs (k + 1)
        ⟨o2.st, o.events ++ o2.events, o2.panicked⟩

/-- The body of the loop over the lines for either value of `geodb`. -/
def mymain.line.on (fl : Flags) (geodb : Reader) (ignoreRegex : List Regexp)
    (clock : Nat → Clock) (g : Globals) (l : String) : Outcome :=
  let addrs := ADDRRE.FindAllString l
  if 0 = addrs.length then ⟨g, [], false⟩
  else mymain.ADDRS.on fl geodb ignoreRegex clock g addrs 0

/-- The loop over the lines of standard input: `clock n k` gives the clock
readings during the `k`-th call of `seen_addr` for the `n`-th line; a panic
ends the process. -/
def mymain.lines (fl : Flags) (geodb : Reader) (ignoreRegex : List Regexp)
    (clock : Nat → Nat → Clock) : Globals → List String → Nat → Outcome
  | g, [], _ => ⟨g, [], false⟩
  | g, l :: ls, n =>
    let o := mymain.line.on fl geodb ignoreRegex (clock n) g l
    if o.panicked then o
    else
      let o2 := mymain.lines fl geodb ignoreRegex clock o.st ls (n + 1)
      ⟨o2.st, o.events ++ o2.events, o2.panicked⟩

/-- The value of `scanner.Err()` when it is not nil: `io.EOF` or another error,
given by its description. -/
inductive ScanError where
  | EOF
  | other (description : String)

/-- What a run of `mymain` leaves: the value returned (`none` when the process
ended in a panic instead), the texts written with `fmt.Printf`, the events of
the tracker and the variables at the end. -/
structure MainResult where
  returned : Option Int
  stdout : List String
  events : List Event
  st : Globals

/-- The function `mymain`.  `ignoreRegex` is what the loop over the expressions
of `-x` leaves: `none` when `regexp.Compile` reports an error for one of them,
else the compiled patterns in order.  `Open` is the result of
`geoip2.Open(*dbfile)`, an error or a reader given by its lookup; `lines` are
the lines the scanner delivers and `err` is the final `scanner.Err()`.  The
message written to standard error when an expression does not compile is left
out. -/
def mymain (fl : Flags) (ignoreRegex : Option (List Regexp)) (Open : Except String Lookup)
    (clock : Nat → Nat → Clock) (lines : List String) (err : Option ScanError) : MainResult :=
  match ignoreRegex with
  | none => ⟨some (-1), [], [], Globals.init⟩
  | some ignoreRegex =>
    let geodb : Reader × List String :=
      match Open with
      | .ok City => (some City, [])
      | .error e => (none, ["Could not open " ++ fl.dbfile ++ ": " ++ e ++ "\n"])
    let o := mymain.lines fl geodb.1 ignoreRegex clock Globals.init lines 0
    if o.panicked then ⟨none, geodb.2, o.events, o.st⟩
    else
      match err with
      | none => ⟨some 0, geodb.2, o.events, o.st⟩
      | some .EOF => ⟨some 0, geodb.2, o.events, o.st⟩
      | some (.other e) => ⟨some (-1), geodb.2 ++ ["Error: " ++ e], o.events, o.st⟩

/-! ## Dotted quads -/

/-- The part of a text from position `i` up to position `e`. -/
def slice (s : List Char) (i e : Nat) : List Char := (s.drop i).take (e - i)

/-- A group: one to three characters, each one of the ASCII digits. -/
def IsGroup (w : List Char) : Prop :=
  1 ≤ w.length ∧ w.length ≤ 3 ∧ ∀ c ∈ w, c ∈ ['0', '1', '2', '3', '4', '5', '6', '7', '8', '9']

/-- Four groups separated by single dots. -/
def IsDottedQuad (w : List Char) : Prop :=
  ∃ g1 g2 g3 g4 : List Char, IsGroup g1 ∧ IsGroup g2 ∧ IsGroup g3 ∧ IsGroup g4 ∧
    w = g1 ++ '.' :: (g2 ++ '.' :: (g3 ++ '.' :: g4))

/-- Three groups, each followed by a dot. -/
def IsThreeGroups (w : List Char) : Prop :=
  ∃ g1 g2 g3 : List Char, IsGroup g1 ∧ IsGroup g2 ∧ IsGroup g3 ∧
    w = g1 ++ '.' :: (g2 ++ '.' :: (g3 ++ ['.']))

/-- Some part of the text starting at position `p` is a dotted quad. -/
def StartsQuad (s : List Char) (p : Nat) : Prop :=
  ∃ e, p ≤ e ∧ e ≤ s.length ∧ IsDottedQuad (slice s p e)

/-- The list of parts `(b, e)` of the text takes, from position `pos` on and
from left to right, the longest dotted quad at the first position where one
starts, goes on after its end, and stops when no dotted quad starts any
more. -/
def LeftmostFrom (s : List Char) : Nat → List (Nat × Nat) → Prop
  | pos, [] => ∀ p, pos ≤ p → ¬ StartsQuad s p
  | pos, (b, e) :: rest =>
    pos ≤ b ∧ b ≤ e ∧ e ≤ s.length ∧ IsDottedQuad (slice s b e) ∧
      (∀ p, pos ≤ p → p < b → ¬ StartsQuad s p) ∧
      (∀ e2, b ≤ e2 → e2 ≤ s.length → IsDottedQuad (slice s b e2) → e2 ≤ e) ∧
      LeftmostFrom s e rest

/-- The matcher finds, from every start position in the text, exactly the ends
of the parts of the text that have the property `P`. -/
def Regexp.Matcher.Decides (s : List Char) (m : Regexp.Matcher) (P : List Char → Prop) : Prop :=
  ∀ i e, i ≤ s.length → (e ∈ m i ↔ i ≤ e ∧ e ≤ s.length ∧ P (slice s i e))

/-! ## Sequences of observations -/

/-- Number of observations of `a` in a sequence of observations. -/
def observationsOf (a : String) (obs : List (String × Clock)) : Nat :=
  obs.countP (fun o => decide (o.1 = a))

/-- Whether every observation of `a` in the sequence comes at most `timeoff`
after the `lastSeen` it finds: the gap is measured, as `seen_addr` does, from
the time stored by the previous observation of `a` (`prev`) to the clock
reading of the staleness check, and for a first observation from the reading
that dates the new record. -/
def withinWindow (timeoff : Duration) (a : String) :
    Option Time → List (String × Clock) → Bool
  | _, [] => true
  | prev, (x, c) :: rest =>
    if x = a then
      decide (c.atCheck.Sub (prev.getD c.atNew) ≤ timeoff)
        && withinWindow timeoff a (some c.atStore) rest
    else withinWindow timeoff a prev rest

/-- The time stored by the last observation of `a` in the sequence, `prev`
when there is none. -/
def lastStore (a : String) : Option Time → List (String × Clock) → Option Time
  | prev, [] => prev
  | prev, (x, c) :: rest =>
    if x = a then lastStore a (some c.atStore) rest else lastStore a prev rest

/-- The map holds for `a` what `k` observations in a row leave there: no entry
when there was none (`prev = none`, `k = 0`), else an entry with count `k`
last seen at `prev`. -/
def Tracks (g : Globals) (a : String) (k : Int) (prev : Option Time) : Prop :=
  match prev with
  | none => k = 0 ∧ g.seenIPs a = none
  | some p => ∃ r, g.seenIPs a = some r ∧ r.nSeen = k ∧ r.lastSeen = p

/-! ## Theorems -/

/-! ### Basic facts about `print_addr` and `seen_addr` -/

theorem print_addr_seenIPs (City : Lookup) (g : Globals) (a : String) :
    (print_addr City g a).st.seenIPs = g.seenIPs := by
  unfold print_addr
  split
  · rfl
  · split <;> rfl

theorem seen_addr_seenIPs (fl : Flags) (City : Lookup) (g : Globals) (a : String) (c : Clock) :
    (seen_addr fl City g a c).st.seenIPs
      = Function.update g.seenIPs a (some (seen_addr.record fl g a c)) := by
  unfold seen_addr
  simp only
  split
  · rw [print_addr_seenIPs]
  · rfl

theorem seen_addr_stored (fl : Flags) (City : Lookup) (g : Globals) (a : String) (c : Clock) :
    (seen_addr fl City g a c).st.seenIPs a = some (seen_addr.record fl g a c) := by
  rw [seen_addr_seenIPs, Function.update_same]

theorem seen_addr_count (fl : Flags) (City : Lookup) (g : Globals) (a : String) (c : Clock) :
    (seen_addr fl City g a c).st.count a = some (seen_addr.record fl g a c).nSeen := by
  simp [Globals.count, seen_addr_stored]

theorem record_stale (fl : Flags) (g : Globals) (a : String) (c : Clock) (r : seenIP)
    (hr : g.seenIPs a = some r) (hgap : fl.timeoff < c.atCheck.Sub r.lastSeen) :
    seen_addr.record fl g a c = ⟨r.addr, 0, c.atStore⟩ := by
  simp [seen_addr.record, hr, hgap]

theorem record_fresh (fl : Flags) (g : Globals) (a : String) (c : Clock) (r : seenIP)
    (hr : g.seenIPs a = some r) (hgap : c.atCheck.Sub r.lastSeen ≤ fl.timeoff) :
    seen_addr.record fl g a c = ⟨r.addr, r.nSeen + 1, c.atStore⟩ := by
  simp [seen_addr.record, hr, not_lt.mpr hgap]

theorem record_new (fl : Flags) (g : Globals) (a : String) (c : Clock)
    (hr : g.seenIPs a = none) (hgap : ¬ fl.timeoff < c.atCheck.Sub c.atNew) :
    seen_addr.record fl g a c = ⟨a, 1, c.atStore⟩ := by
  simp [seen_addr.record, hr, hgap]

/-! ### C1: the count after an idle gap -/

/-- C1, as stated, fails: with `-p 3 -t 2s`, the address observed at 0 s,
0.5 s and 0.9 s and again at 5 s is in the map with count 3 and a last
observation 4.1 s old, more than the window; the observation at 5 s stores
count 0, not 1. -/
theorem C1_counterexample :
    let fl : Flags := ⟨"", 3, "", 2000000000⟩
    let City : Lookup := fun _ => .error "no database"
    let g := (seen_addrs fl City Globals.init
      [("1.2.3.4", Clock.instant 0), ("1.2.3.4", Clock.instant 500000000),
       ("1.2.3.4", Clock.instant 900000000)]).st
    let c := Clock.instant 5000000000
    g.seenIPs "1.2.3.4" = some ⟨"1.2.3.4", 3, 900000000⟩ ∧
    fl.timeoff < c.atCheck.Sub 900000000 ∧
    (seen_addr fl City g "1.2.3.4" c).st.count "1.2.3.4" = some 0 ∧
    (seen_addr fl City g "1.2.3.4" c).st.count "1.2.3.4" ≠ some 1 := by
  decide

/-- C1, amended: for an address already in the map, an observation made when
the gap since its stored `lastSeen` is strictly greater than `timeoff` leaves
it with count 0 (the increment is made first and the reset then discards it),
whatever the previous count, and with the time of this observation as
`lastSeen`. -/
theorem seen_addr_after_idle_gap (fl : Flags) (City : Lookup) (g : Globals) (a : String)
    (c : Clock) (r : seenIP) (hr : g.seenIPs a = some r)
    (hgap : fl.timeoff < c.atCheck.Sub r.lastSeen) :
    (seen_addr fl City g a c).st.seenIPs a = some ⟨r.addr, 0, c.atStore⟩ ∧
    (seen_addr fl City g a c).st.count a = some 0 := by
  rw [seen_addr_count, seen_addr_stored, record_stale fl g a c r hr hgap]
  exact ⟨rfl, rfl⟩

theorem seen_addr_after_idle_gap_witness :
    (seen_addr ⟨"", 3, "", 2⟩ (fun _ => .error "no database")
        ⟨fun x => if x = "1.2.3.4" then some ⟨"1.2.3.4", 7, 1⟩ else none, ""⟩
        "1.2.3.4" (Clock.instant 4)).st.seenIPs "1.2.3.4" = some ⟨"1.2.3.4", 0, 4⟩ ∧
    (seen_addr ⟨"", 3, "", 2⟩ (fun _ => .error "no database")
        ⟨fun x => if x = "1.2.3.4" then some ⟨"1.2.3.4", 7, 1⟩ else none, ""⟩
        "1.2.3.4" (Clock.instant 4)).st.count "1.2.3.4" = some 0 :=
  seen_addr_after_idle_gap ⟨"", 3, "", 2⟩ (fun _ => .error "no database")
    ⟨fun x => if x = "1.2.3.4" then some ⟨"1.2.3.4", 7, 1⟩ else none, ""⟩
    "1.2.3.4" (Clock.instant 4) ⟨"1.2.3.4", 7, 1⟩ (by decide) (by decide)

/-! ### C2: the increment when no reset applies -/

/-- C2: when no idle reset applies, `seen_addr` counts the observation: an
address absent from the map is stored with count 1 (no reset applies to it
when `timeoff` is not smaller than the time between the two clock readings, in
particular when `timeoff` is non-negative and the clock stands still during
the call), an address present whose gap since `lastSeen` is at most `timeoff`
(equality included) is stored with its previous count plus one; in both cases
the stored `lastSeen` is the time of this observation. -/
theorem seen_addr_increments (fl : Flags) (City : Lookup) (g : Globals) (a : String)
    (c : Clock) :
    (g.seenIPs a = none → ¬ fl.timeoff < c.atCheck.Sub c.atNew →
      (seen_addr fl City g a c).st.seenIPs a = some ⟨a, 1, c.atStore⟩) ∧
    (g.seenIPs a = none → 0 ≤ fl.timeoff → ∀ t : Time,
      (seen_addr fl City g a (Clock.instant t)).st.seenIPs a = some ⟨a, 1, t⟩) ∧
    (∀ r, g.seenIPs a = some r → c.atCheck.Sub r.lastSeen ≤ fl.timeoff →
      (seen_addr fl City g a c).st.seenIPs a = some ⟨r.addr, r.nSeen + 1, c.atStore⟩) := by
  refine ⟨?_, ?_, ?_⟩
  · intro hr hgap
    rw [seen_addr_stored, record_new fl g a c hr hgap]
  · intro hr h0 t
    rw [seen_addr_stored, record_new fl g a _ hr]
    · rfl
    · simp [Clock.instant, Time.Sub, h0]
  · intro r hr hgap
    rw [seen_addr_stored, record_fresh fl g a c r hr hgap]

theorem seen_addr_increments_witness :
    (seen_addr ⟨"", 3, "", 2⟩ (fun _ => .error "no database") Globals.init
        "1.2.3.4" ⟨5, 6, 7⟩).st.seenIPs "1.2.3.4" = some ⟨"1.2.3.4", 1, 7⟩ ∧
    (seen_addr ⟨"", 3, "", 2⟩ (fun _ => .error "no database") Globals.init
        "1.2.3.4" (Clock.instant 9)).st.seenIPs "1.2.3.4" = some ⟨"1.2.3.4", 1, 9⟩ ∧
    (seen_addr ⟨"", 3, "", 2⟩ (fun _ => .error "no database")
        ⟨fun x => if x = "1.2.3.4" then some ⟨"1.2.3.4", 7, 4⟩ else none, ""⟩
        "1.2.3.4" ⟨5, 6, 7⟩).st.seenIPs "1.2.3.4" = some ⟨"1.2.3.4", 7 + 1, 7⟩ :=
  have h := seen_addr_increments ⟨"", 3, "", 2⟩ (fun _ => .error "no database") Globals.init
    "1.2.3.4" ⟨5, 6, 7⟩
  have h2 := seen_addr_increments ⟨"", 3, "", 2⟩ (fun _ => .error "no database")
    ⟨fun x => if x = "1.2.3.4" then some ⟨"1.2.3.4", 7, 4⟩ else none, ""⟩ "1.2.3.4" ⟨5, 6, 7⟩
  ⟨h.1 rfl (by decide), h.2.1 rfl (by decide) 9, h2.2.2 ⟨"1.2.3.4", 7, 4⟩ (by decide) (by decide)⟩

/-! ### C3: the emitter is invoked on exact equality -/

theorem print_addr_suppressed (City : Lookup) (g : Globals) (a : String)
    (h : a = g.lastPrinted) : print_addr City g a = ⟨g, [.print_addr a], false⟩ := by
  simp [print_addr, h]

theorem print_addr_logs (City : Lookup) (g : Globals) (a b : String)
    (h : a ≠ g.lastPrinted) (hb : geoinfo (City a) = some b) :
    print_addr City g a
      = ⟨{ g with lastPrinted := a }, [.print_addr a, .Printf a b], false⟩ := by
  simp [print_addr, h, hb]

theorem print_addr_panics (City : Lookup) (g : Globals) (a : String)
    (h : a ≠ g.lastPrinted) (hb : geoinfo (City a) = none) :
    print_addr City g a = ⟨g, [.print_addr a], true⟩ := by
  simp [print_addr, h, hb]

theorem print_addr_entry (City : Lookup) (g : Globals) (a : String) :
    ∃ rest, (print_addr City g a).events = .print_addr a :: rest ∧
      ∀ x, Event.print_addr x ∉ rest := by
  unfold print_addr
  split
  · exact ⟨[], rfl, by simp⟩
  · split
    · exact ⟨[], rfl, by simp⟩
    · exact ⟨[.Printf a _], rfl, by simp⟩

theorem seen_addr_triggered (fl : Flags) (City : Lookup) (g : Globals) (a : String) (c : Clock)
    (h : fl.printAfter = (seen_addr.record fl g a c).nSeen) :
    seen_addr fl City g a c
      = print_addr City
          { g with seenIPs := Function.update g.seenIPs a (some (seen_addr.record fl g a c)) }
          a := by
  simp [seen_addr, h]

theorem seen_addr_quiet (fl : Flags) (City : Lookup) (g : Globals) (a : String) (c : Clock)
    (h : fl.printAfter ≠ (seen_addr.record fl g a c).nSeen) :
    seen_addr fl City g a c
      = ⟨{ g with seenIPs := Function.update g.seenIPs a (some (seen_addr.record fl g a c)) },
          [], false⟩ := by
  simp [seen_addr, h]

/-- C3: `seen_addr(a)` enters `print_addr` if and only if the count it has just
stored for `a` equals `printAfter` exactly, and then for `a` only; an
observation that takes the count from `printAfter` to `printAfter + 1` without a
reset leaves no event at all. -/
theorem seen_addr_invokes_iff (fl : Flags) (City : Lookup) (g : Globals) (a : String)
    (c : Clock) :
    (Event.print_addr a ∈ (seen_addr fl City g a c).events
      ↔ (seen_addr fl City g a c).st.count a = some fl.printAfter) ∧
    (∀ x, Event.print_addr x ∈ (seen_addr fl City g a c).events → x = a) ∧
    (∀ r, g.seenIPs a = some r → r.nSeen = fl.printAfter →
      c.atCheck.Sub r.lastSeen ≤ fl.timeoff →
      (seen_addr fl City g a c).st.count a = some (fl.printAfter + 1) ∧
      (seen_addr fl City g a c).events = []) := by
  refine ⟨?_, ?_, ?_⟩
  · rw [seen_addr_count]
    by_cases h : fl.printAfter = (seen_addr.record fl g a c).nSeen
    · rw [seen_addr_triggered fl City g a c h]
      obtain ⟨rest, hev, -⟩ := print_addr_entry City
        { g with seenIPs := Function.update g.seenIPs a (some (seen_addr.record fl g a c)) } a
      rw [hev]
      simp [h]
    · rw [seen_addr_quiet fl City g a c h]
      simp only [List.not_mem_nil, false_iff]
      intro h2
      exact h (Option.some.inj h2).symm
  · intro x hx
    by_cases h : fl.printAfter = (seen_addr.record fl g a c).nSeen
    · rw [seen_addr_triggered fl City g a c h] at hx
      obtain ⟨rest, hev, hrest⟩ := print_addr_entry City
        { g with seenIPs := Function.update g.seenIPs a (some (seen_addr.record fl g a c)) } a
      rw [hev] at hx
      rcases List.mem_cons.mp hx with h1 | h1
      · exact Event.print_addr.inj h1
      · exact absurd h1 (hrest x)
    · rw [seen_addr_quiet fl City g a c h] at hx
      exact absurd hx (List.not_mem_nil _)
  · intro r hr hn hgap
    have hrec := record_fresh fl g a c r hr hgap
    have hne : fl.printAfter ≠ (seen_addr.record fl g a c).nSeen := by
      rw [hrec, hn]
      simp
    refine ⟨?_, ?_⟩
    · rw [seen_addr_count, hrec, hn]
    · rw [seen_addr_quiet fl City g a c hne]

/-- C3 at work with `-p 3 -t 2`: a fourth observation in time stores 4 and
leaves no event. -/
theorem seen_addr_invokes_iff_witness :
    (seen_addr ⟨"", 3, "", 2⟩ (fun _ => .error "no database")
        ⟨fun x => if x = "1.2.3.4" then some ⟨"1.2.3.4", 3, 4⟩ else none, ""⟩
        "1.2.3.4" ⟨5, 6, 7⟩).st.count "1.2.3.4" = some (3 + 1) ∧
    (seen_addr ⟨"", 3, "", 2⟩ (fun _ => .error "no database")
        ⟨fun x => if x = "1.2.3.4" then some ⟨"1.2.3.4", 3, 4⟩ else none, ""⟩
        "1.2.3.4" ⟨5, 6, 7⟩).events = [] :=
  (seen_addr_invokes_iff ⟨"", 3, "", 2⟩ (fun _ => .error "no database")
    ⟨fun x => if x = "1.2.3.4" then some ⟨"1.2.3.4", 3, 4⟩ else none, ""⟩
    "1.2.3.4" ⟨5, 6, 7⟩).2.2 ⟨"1.2.3.4", 3, 4⟩ (by decide) (by decide) (by decide)

/-! ### C5: duplicate suppression in `print_addr` -/

/-- C5 at a failing input: the lookup returns a record with country code "US"
whose country names have the single key ""; `a` differs from `lastPrinted`, yet
`print_addr` logs no line and leaves `lastPrinted` as it was, because `getEN`
panics while the line is being put together. -/
theorem print_addr_no_line_on_panic :
    let City : Lookup := fun _ => .ok ⟨⟨"US", [("", "x")]⟩, ⟨[("en", "Boston")]⟩, [], ⟨false⟩⟩
    "1.2.3.4" ≠ Globals.init.lastPrinted ∧
    getEN [("", "x")] = none ∧
    (print_addr City Globals.init "1.2.3.4").events = [.print_addr "1.2.3.4"] ∧
    emitted (print_addr City Globals.init "1.2.3.4").events = [] ∧
    (print_addr City Globals.init "1.2.3.4").panicked = true ∧
    (print_addr City Globals.init "1.2.3.4").st.lastPrinted = "" := by
  decide

/-! ### C9 and C10: the text after the address -/

theorem geoinfo_subdivisions_eq (vs : List SubdivisionRec) (s0 s : String) :
    geoinfo.subdivisions vs s0 = some s ↔
      ∃ names : List String, vs.map (fun v => getEN v.Names) = names.map some ∧
        s = names.foldl (· ++ ·) s0 := by
  induction vs generalizing s0 with
  | nil =>
    constructor
    · intro h
      refine ⟨[], rfl, ?_⟩
      simpa [geoinfo.subdivisions] using h.symm
    · rintro ⟨names, hn, hs⟩
      have : names = [] := by simpa using hn.symm
      subst this
      simp [geoinfo.subdivisions, hs]
  | cons v vs ih =>
    constructor
    · intro h
      unfold geoinfo.subdivisions at h
      split at h
      · exact absurd h (by simp)
      · rename_i n hn
        obtain ⟨names, hmap, hs⟩ := (ih (s0 ++ n)).mp h
        exact ⟨n :: names, by simp [hn, hmap], by simpa using hs⟩
    · rintro ⟨names, hmap, hs⟩
      cases names with
      | nil => simp at hmap
      | cons n names =>
        simp only [List.map_cons, List.cons.injEq] at hmap
        unfold geoinfo.subdivisions
        rw [hmap.1]
        exact (ih (s0 ++ n)).mpr ⟨names, hmap.2, by simpa using hs⟩

theorem geoinfo_location (record : GeoRecord)
    (hanon : record.Traits.IsAnonymousProxy = false) (hiso : record.Country.IsoCode ≠ "")
    (b : String) :
    geoinfo (.ok record) = some b ↔
      ∃ country s city : String,
        getEN record.Country.Names = some country ∧
        (if 0 = record.Subdivisions.length then some "No Subdivision (State)"
          else geoinfo.subdivisions record.Subdivisions "") = some s ∧
        getEN record.City.Names = some city ∧
        b = record.Country.IsoCode ++ ", " ++ country ++ ", " ++ s ++ ", " ++ city := by
  have hiso2 : ¬ "" = record.Country.IsoCode := fun h => hiso h.symm
  simp only [geoinfo, hanon, hiso2, Bool.false_eq_true, if_false]
  constructor
  · intro h
    split at h
    · exact absurd h (by simp)
    · rename_i s hs
      split at h
      · exact absurd h (by simp)
      · rename_i country hc
        split at h
        · exact absurd h (by simp)
        · rename_i city hy
          exact ⟨country, s, city, hc, hs, hy, (Option.some.inj h).symm⟩
  · rintro ⟨country, s, city, hc, hs, hy, hb⟩
    rw [hs]
    simp only [hc, hy, hb]

/-- C9: for a call of `print_addr(a)` that is not suppressed, the text logged
after the address is chosen by the first case that applies: the lookup
returned an error, its description; the record is flagged anonymous proxy,
"Anonymous Proxy" (whatever its country code); its country code is empty,
"Countryless"; otherwise the four fields joined with ", ", when `getEN`
returns for each of them. -/
theorem print_addr_body_cases (City : Lookup) (g : Globals) (a : String)
    (h : a ≠ g.lastPrinted) :
    (∀ err, City a = .error err →
      (print_addr City g a).events = [.print_addr a, .Printf a err]) ∧
    (∀ record, City a = .ok record → record.Traits.IsAnonymousProxy = true →
      (print_addr City g a).events = [.print_addr a, .Printf a "Anonymous Proxy"]) ∧
    (∀ record, City a = .ok record → record.Traits.IsAnonymousProxy = false →
      record.Country.IsoCode = "" →
      (print_addr City g a).events = [.print_addr a, .Printf a "Countryless"]) ∧
    (∀ record, City a = .ok record → record.Traits.IsAnonymousProxy = false →
      record.Country.IsoCode ≠ "" → ∀ country s city,
      getEN record.Country.Names = some country →
      (if 0 = record.Subdivisions.length then some "No Subdivision (State)"
        else geoinfo.subdivisions record.Subdivisions "") = some s →
      getEN record.City.Names = some city →
      (print_addr City g a).events =
        [.print_addr a,
         .Printf a (record.Country.IsoCode ++ ", " ++ country ++ ", " ++ s ++ ", " ++ city)]) := by
  refine ⟨?_, ?_, ?_, ?_⟩
  · intro err herr
    rw [print_addr_logs City g a err h (by rw [herr]; rfl)]
  · intro record hrec hanon
    rw [print_addr_logs City g a "Anonymous Proxy" h (by rw [hrec]; simp [geoinfo, hanon])]
  · intro record hrec hanon hiso
    rw [print_addr_logs City g a "Countryless" h (by rw [hrec]; simp [geoinfo, hanon, hiso])]
  · intro record hrec hanon hiso country s city hc hs hy
    rw [print_addr_logs City g a _ h
      (by rw [hrec]; exact (geoinfo_location record hanon hiso _).mpr ⟨country, s, city, hc, hs, hy, rfl⟩)]

/-- C9 on four lookups, one per case. -/
theorem print_addr_body_cases_witness :
    (print_addr (fun _ => .error "no database") Globals.init "1.2.3.4").events
      = [.print_addr "1.2.3.4", .Printf "1.2.3.4" "no database"] ∧
    (print_addr (fun _ => .ok ⟨⟨"", []⟩, ⟨[]⟩, [], ⟨true⟩⟩) Globals.init "1.2.3.4").events
      = [.print_addr "1.2.3.4", .Printf "1.2.3.4" "Anonymous Proxy"] ∧
    (print_addr (fun _ => .ok ⟨⟨"", []⟩, ⟨[]⟩, [], ⟨false⟩⟩) Globals.init "1.2.3.4").events
      = [.print_addr "1.2.3.4", .Printf "1.2.3.4" "Countryless"] ∧
    (print_addr (fun _ => .ok ⟨⟨"US", [("en", "United States")]⟩, ⟨[("de", "Boston")]⟩, [],
        ⟨false⟩⟩) Globals.init "1.2.3.4").events
      = [.print_addr "1.2.3.4",
         .Printf "1.2.3.4"
          ("US" ++ ", " ++ "United States" ++ ", " ++ "No Subdivision (State)" ++ ", "
            ++ "Boston")] :=
  ⟨(print_addr_body_cases (fun _ => .error "no database") Globals.init "1.2.3.4"
      (by decide)).1 "no database" rfl,
   (print_addr_body_cases (fun _ => .ok ⟨⟨"", []⟩, ⟨[]⟩, [], ⟨true⟩⟩) Globals.init "1.2.3.4"
      (by decide)).2.1 ⟨⟨"", []⟩, ⟨[]⟩, [], ⟨true⟩⟩ rfl rfl,
   (print_addr_body_cases (fun _ => .ok ⟨⟨"", []⟩, ⟨[]⟩, [], ⟨false⟩⟩) Globals.init "1.2.3.4"
      (by decide)).2.2.1 ⟨⟨"", []⟩, ⟨[]⟩, [], ⟨false⟩⟩ rfl rfl rfl,
   (print_addr_body_cases (fun _ => .ok ⟨⟨"US", [("en", "United States")]⟩,
        ⟨[("de", "Boston")]⟩, [], ⟨false⟩⟩) Globals.init "1.2.3.4"
      (by decide)).2.2.2 ⟨⟨"US", [("en", "United States")]⟩, ⟨[("de", "Boston")]⟩, [], ⟨false⟩⟩
      rfl rfl (by decide) "United States" "No Subdivision (State)" "Boston"
      (by decide) (by decide) (by decide)⟩

theorem getEN_only_de (X : String) : getEN [("de", X)] = some X := by
  have h1 : ToLower (TrimSpace "en") = "en" := by decide
  have h2 : ToLower (TrimSpace "es") = "es" := by decide
  have h3 : ToLower (TrimSpace "fr") = "fr" := by decide
  have h4 : ToLower (TrimSpace "de") = "de" := by decide
  have k1 : TrimSpace (ToLower "en") = "en" := by decide
  have k2 : TrimSpace (ToLower "es") = "es" := by decide
  have k3 : TrimSpace (ToLower "fr") = "fr" := by decide
  have k4 : TrimSpace (ToLower "de") = "de" := by decide
  have l1 : (0 = len "en") = False := by decide
  have l2 : (0 = len "es") = False := by decide
  have l3 : (0 = len "fr") = False := by decide
  have l4 : (0 = len "de") = False := by decide
  have e1 : ("en" == "de") = false := by decide
  have e2 : ("es" == "de") = false := by decide
  have e3 : ("fr" == "de") = false := by decide
  have e4 : ("de" == "de") = true := by decide
  simp only [getEN, getEN.preferred, h1, h2, h3, h4, k1, k2, k3, k4, l1, l2, l3, l4, if_false,
    mapGet, List.lookup, e1, e2, e3, e4]

/-- C10: for a record returned by a successful lookup that is not an
anonymous proxy and has a non-empty country code, the text after the address
is exactly the country code, `getEN` of the country names, the subdivision
field and `getEN` of the city names joined with ", " (and there is such a text
exactly when these calls of `getEN` return); the subdivision field is
"No Subdivision (State)" when the record has no subdivisions and otherwise the
resolved names of its subdivisions concatenated in record order.  With country
code "US", no subdivisions and city names only under "de" the text is
"US, <country>, No Subdivision (State), <the name under de>". -/
theorem geoinfo_four_fields (record : GeoRecord)
    (hanon : record.Traits.IsAnonymousProxy = false) (hiso : record.Country.IsoCode ≠ "") :
    (∀ b, geoinfo (.ok record) = some b ↔
      ∃ country s city : String,
        getEN record.Country.Names = some country ∧
        ((record.Subdivisions = [] ∧ s = "No Subdivision (State)") ∨
         (record.Subdivisions ≠ [] ∧ ∃ names : List String,
            record.Subdivisions.map (fun v => getEN v.Names) = names.map some ∧
            s = String.join names)) ∧
        getEN record.City.Names = some city ∧
        b = String.intercalate ", " [record.Country.IsoCode, country, s, city]) ∧
    (∀ (X : String) (countryNames : Names) (country : String),
      getEN countryNames = some country →
      geoinfo (.ok ⟨⟨"US", countryNames⟩, ⟨[("de", X)]⟩, [], ⟨false⟩⟩)
        = some ("US, " ++ country ++ ", No Subdivision (State), " ++ X)) := by
  constructor
  · intro b
    rw [geoinfo_location record hanon hiso b]
    have hfield : ∀ s : String,
        ((if 0 = record.Subdivisions.length then some "No Subdivision (State)"
          else geoinfo.subdivisions record.Subdivisions "") = some s) ↔
        ((record.Subdivisions = [] ∧ s = "No Subdivision (State)") ∨
         (record.Subdivisions ≠ [] ∧ ∃ names : List String,
            record.Subdivisions.map (fun v => getEN v.Names) = names.map some ∧
            s = String.join names)) := by
      intro s
      cases hsub : record.Subdivisions with
      | nil =>
        simp only [List.length_nil, if_true, Option.some.injEq, true_and, ne_eq,
          not_true_eq_false, false_and, or_false]
        exact eq_comm
      | cons v vs =>
        have hne : ¬ 0 = (v :: vs).length := by simp
        rw [if_neg hne, geoinfo_subdivisions_eq]
        simp only [reduceCtorEq, false_and, ne_eq, not_false_eq_true, true_and, false_or]
        rfl
    have hjoin : ∀ country s city : String,
        String.intercalate ", " [record.Country.IsoCode, country, s, city]
          = record.Country.IsoCode ++ ", " ++ country ++ ", " ++ s ++ ", " ++ city := by
      intro country s city
      simp [String.intercalate, String.intercalate.go]
    constructor
    · rintro ⟨country, s, city, hc, hs, hy, hb⟩
      exact ⟨country, s, city, hc, (hfield s).mp hs, hy, by rw [hjoin]; exact hb⟩
    · rintro ⟨country, s, city, hc, hs, hy, hb⟩
      exact ⟨country, s, city, hc, (hfield s).mpr hs, hy, by rw [← hjoin]; exact hb⟩
  · intro X countryNames country hc
    rw [geoinfo_location _ rfl (by simp)]
    refine ⟨country, "No Subdivision (State)", X, hc, rfl, getEN_only_de X, ?_⟩
    simp [String.append_assoc]

/-- C10 on a record with two subdivisions. -/
theorem geoinfo_four_fields_witness :
    geoinfo (.ok ⟨⟨"US", [("en", "United States")]⟩, ⟨[("en", "Boston")]⟩,
        [⟨[("en", "Massachusetts")]⟩, ⟨[("fr", "Suffolk")]⟩], ⟨false⟩⟩)
      = some "US, United States, MassachusettsSuffolk, Boston" :=
  ((geoinfo_four_fields ⟨⟨"US", [("en", "United States")]⟩, ⟨[("en", "Boston")]⟩,
        [⟨[("en", "Massachusetts")]⟩, ⟨[("fr", "Suffolk")]⟩], ⟨false⟩⟩ rfl (by decide)).1
      "US, United States, MassachusettsSuffolk, Boston").mpr
    ⟨"United States", "MassachusettsSuffolk", "Boston", by decide,
      Or.inr ⟨by simp, ["Massachusetts", "Suffolk"], by decide, by decide⟩, by decide,
      by decide⟩

/-! ### Sequences of observations: C4 and C6 -/

theorem emitted_append (l1 l2 : List Event) : emitted (l1 ++ l2) = emitted l1 ++ emitted l2 := by
  induction l1 with
  | nil => rfl
  | cons e l1 ih => cases e <;> simp [emitted, ih]

theorem print_addr_step (City : Lookup) (g : Globals) (a : String) :
    (emitted (print_addr City g a).events = [] ∧
      (print_addr City g a).st.lastPrinted = g.lastPrinted ∧
      ((print_addr City g a).panicked = true → geoinfo (City a) = none) ∧
      ((print_addr City g a).panicked = false →
        a = g.lastPrinted)) ∨
    (emitted (print_addr City g a).events = [a] ∧ a ≠ g.lastPrinted ∧
      (print_addr City g a).st.lastPrinted = a ∧ geoinfo (City a) ≠ none ∧
      (print_addr City g a).panicked = false) := by
  by_cases h : a = g.lastPrinted
  · left
    rw [print_addr_suppressed City g a h]
    simp [emitted, h]
  · cases hb : geoinfo (City a) with
    | none =>
      left
      rw [print_addr_panics City g a h hb]
      simp [emitted]
    | some b =>
      right
      rw [print_addr_logs City g a b h hb]
      simp [emitted, h]

theorem seen_addr_step (fl : Flags) (City : Lookup) (g : Globals) (a : String) (c : Clock) :
    (emitted (seen_addr fl City g a c).events = [] ∧
      (seen_addr fl City g a c).st.lastPrinted = g.lastPrinted ∧
      ((seen_addr fl City g a c).panicked = true → geoinfo (City a) = none)) ∨
    (emitted (seen_addr fl City g a c).events = [a] ∧ a ≠ g.lastPrinted ∧
      (seen_addr fl City g a c).st.lastPrinted = a ∧ geoinfo (City a) ≠ none ∧
      (seen_addr fl City g a c).panicked = false) := by
  by_cases h : fl.printAfter = (seen_addr.record fl g a c).nSeen
  · rw [seen_addr_triggered fl City g a c h]
    rcases print_addr_step City
      { g with seenIPs := Function.update g.seenIPs a (some (seen_addr.record fl g a c)) } a
      with ⟨h1, h2, h3, -⟩ | h1
    · exact Or.inl ⟨h1, h2, h3⟩
    · exact Or.inr h1
  · rw [seen_addr_quiet fl City g a c h]
    left
    simp [emitted]

theorem seen_addr_other (fl : Flags) (City : Lookup) (g : Globals) (a x : String) (c : Clock)
    (hx : a ≠ x) : (seen_addr fl City g x c).st.seenIPs a = g.seenIPs a := by
  rw [seen_addr_seenIPs, Function.update_noteq hx]

theorem record_tracked (fl : Flags) (g : Globals) (a : String) (c : Clock) (k : Int)
    (prev : Option Time) (ht : Tracks g a k prev)
    (hgap : c.atCheck.Sub (prev.getD c.atNew) ≤ fl.timeoff) :
    (seen_addr.record fl g a c).nSeen = k + 1 ∧
    (seen_addr.record fl g a c).lastSeen = c.atStore := by
  cases prev with
  | none =>
    obtain ⟨hk, hnone⟩ := ht
    rw [record_new fl g a c hnone (not_lt.mpr hgap), hk]
    exact ⟨rfl, rfl⟩
  | some p =>
    obtain ⟨r, hr, hk, hp⟩ := ht
    have hgap2 : c.atCheck.Sub r.lastSeen ≤ fl.timeoff := by rw [hp]; exact hgap
    rw [record_fresh fl g a c r hr hgap2, hk]
    exact ⟨rfl, rfl⟩

theorem streak_before_threshold (fl : Flags) (City : Lookup) (a : String) :
    ∀ (pre : List (String × Clock)) (g : Globals) (k : Int) (prev : Option Time),
      Tracks g a k prev → withinWindow fl.timeoff a prev pre = true →
      k + observationsOf a pre < fl.printAfter →
      (∀ x ∈ pre, geoinfo (City x.1) ≠ none) →
      (seen_addrs fl City g pre).panicked = false ∧
      Tracks (seen_addrs fl City g pre).st a (k + observationsOf a pre) (lastStore a prev pre) ∧
      a ∉ emitted (seen_addrs fl City g pre).events := by
  intro pre
  induction pre with
  | nil =>
    intro g k prev ht _ _ _
    simp [seen_addrs, observationsOf, lastStore, emitted, ht]
  | cons xc rest ih =>
    obtain ⟨x, c⟩ := xc
    intro g k prev ht hwin hlt hfmt
    have hfmtr : ∀ y ∈ rest, geoinfo (City y.1) ≠ none :=
      fun y hy => hfmt y (List.mem_cons_of_mem _ hy)
    by_cases hx : x = a
    · subst hx
      have hobs : observationsOf x ((x, c) :: rest) = observationsOf x rest + 1 := by
        simp [observationsOf]
      simp only [withinWindow, if_true, Bool.and_eq_true, decide_eq_true_eq] at hwin
      obtain ⟨hrn, hrl⟩ := record_tracked fl g x c k prev ht hwin.1
      have hne : fl.printAfter ≠ (seen_addr.record fl g x c).nSeen := by
        rw [hrn]
        rw [hobs] at hlt
        push_cast at hlt
        omega
      have hstep := seen_addr_quiet fl City g x c hne
      have ht2 : Tracks (seen_addr fl City g x c).st x (k + 1) (some c.atStore) :=
        ⟨seen_addr.record fl g x c, seen_addr_stored fl City g x c, hrn, hrl⟩
      have hlt2 : k + 1 + observationsOf x rest < fl.printAfter := by
        rw [hobs] at hlt
        push_cast at hlt
        omega
      obtain ⟨h1, h2, h3⟩ := ih (seen_addr fl City g x c).st (k + 1) (some c.atStore) ht2
        hwin.2 hlt2 hfmtr
      have hpan : (seen_addr fl City g x c).panicked = false := by rw [hstep]
      have hev : (seen_addr fl City g x c).events = [] := by rw [hstep]
      simp only [seen_addrs, hpan, Bool.false_eq_true, if_false, hev, List.nil_append, lastStore,
        if_true, hobs]
      refine ⟨h1, ?_, h3⟩
      have e : k + ((observationsOf x rest + 1 : Nat) : Int) = k + 1 + observationsOf x rest := by
        push_cast
        ring
      rw [e]
      exact h2
    · have hobs : observationsOf a ((x, c) :: rest) = observationsOf a rest := by
        simp [observationsOf, hx]
      simp only [withinWindow, if_neg hx] at hwin
      have hfx : geoinfo (City x) ≠ none := hfmt (x, c) (List.mem_cons_self _ _)
      have hpan : (seen_addr fl City g x c).panicked = false := by
        rcases seen_addr_step fl City g x c with ⟨-, -, h3⟩ | ⟨-, -, -, -, h5⟩
        · cases hp : (seen_addr fl City g x c).panicked with
          | false => rfl
          | true => exact absurd (h3 hp) hfx
        · exact h5
      have hem : a ∉ emitted (seen_addr fl City g x c).events := by
        rcases seen_addr_step fl City g x c with ⟨h1, -, -⟩ | ⟨h1, -, -, -, -⟩
        · rw [h1]
          exact List.not_mem_nil _
        · rw [h1]
          simp only [List.mem_singleton]
          exact fun h => hx h.symm
      have ht2 : Tracks (seen_addr fl City g x c).st a k prev := by
        have hsame := seen_addr_other fl City g a x c (fun h => hx h.symm)
        cases prev with
        | none => exact ⟨ht.1, by rw [hsame]; exact ht.2⟩
        | some p =>
          obtain ⟨r, hr, hk, hp⟩ := ht
          exact ⟨r, by rw [hsame]; exact hr, hk, hp⟩
      rw [hobs] at hlt
      obtain ⟨h1, h2, h3⟩ := ih (seen_addr fl City g x c).st k prev ht2 hwin hlt hfmtr
      simp only [seen_addrs, hpan, Bool.false_eq_true, if_false, lastStore, if_neg hx, hobs,
        emitted_append, List.mem_append, not_or]
      exact ⟨h1, h2, hem, h3⟩

theorem withinWindow_append (timeoff : Duration) (a : String) :
    ∀ (pre post : List (String × Clock)) (prev : Option Time),
      withinWindow timeoff a prev (pre ++ post)
        = (withinWindow timeoff a prev pre && withinWindow timeoff a (lastStore a prev pre) post) := by
  intro pre
  induction pre with
  | nil => intro post prev; simp [withinWindow, lastStore]
  | cons xc rest ih =>
    obtain ⟨x, c⟩ := xc
    intro post prev
    by_cases hx : x = a
    · simp [withinWindow, lastStore, hx, ih, Bool.and_assoc]
    · simp [withinWindow, lastStore, hx, ih]

theorem seen_addr_logs (fl : Flags) (City : Lookup) (g : Globals) (a : String) (c : Clock)
    (b : String) (ht : fl.printAfter = (seen_addr.record fl g a c).nSeen)
    (h : a ≠ g.lastPrinted) (hb : geoinfo (City a) = some b) :
    (seen_addr fl City g a c).events = [.print_addr a, .Printf a b] := by
  rw [seen_addr_triggered fl City g a c ht,
    print_addr_logs City
      { g with seenIPs := Function.update g.seenIPs a (some (seen_addr.record fl g a c)) }
      a b h hb]

theorem seen_addr_suppressed (fl : Flags) (City : Lookup) (g : Globals) (a : String) (c : Clock)
    (ht : fl.printAfter = (seen_addr.record fl g a c).nSeen) (h : a = g.lastPrinted) :
    (seen_addr fl City g a c).events = [.print_addr a] := by
  rw [seen_addr_triggered fl City g a c ht,
    print_addr_suppressed City
      { g with seenIPs := Function.update g.seenIPs a (some (seen_addr.record fl g a c)) }
      a h]

theorem seen_addrs_single (fl : Flags) (City : Lookup) (g : Globals) (a : String) (c : Clock) :
    seen_addrs fl City g [(a, c)] = seen_addr fl City g a c := by
  cases h : (seen_addr fl City g a c).panicked with
  | true => simp [seen_addrs, h]
  | false =>
    simp only [seen_addrs, h, Bool.false_eq_true, if_false, List.append_nil]
    rw [← h]

theorem seen_addrs_append (fl : Flags) (City : Lookup) :
    ∀ (xs ys : List (String × Clock)) (g : Globals),
      (seen_addrs fl City g xs).panicked = false →
      seen_addrs fl City g (xs ++ ys)
        = ⟨(seen_addrs fl City (seen_addrs fl City g xs).st ys).st,
           (seen_addrs fl City g xs).events
             ++ (seen_addrs fl City (seen_addrs fl City g xs).st ys).events,
           (seen_addrs fl City (seen_addrs fl City g xs).st ys).panicked⟩ := by
  intro xs
  induction xs with
  | nil => intro ys g _; simp [seen_addrs]
  | cons xc rest ih =>
    obtain ⟨x, c⟩ := xc
    intro ys g hp
    cases h : (seen_addr fl City g x c).panicked with
    | true => simp [seen_addrs, h] at hp
    | false =>
      simp only [seen_addrs, h, Bool.false_eq_true, if_false] at hp
      simp only [List.cons_append, seen_addrs, h, Bool.false_eq_true, if_false, List.append_eq]
      rw [ih ys _ hp]
      simp [List.append_assoc]

/-- C4, as stated, fails for a first observation that is itself taken for
stale.  With `-p 1 -t -1ns` the only observation of a new address stores count
0 and logs nothing, although one observation is a sequence of `N = 1`
observations; with `-p 1 -t 0` the same happens when the clock advances by a
nanosecond between the reading that dates the new record and the reading of
the staleness check. -/
theorem C4_counterexample :
    let City : Lookup := fun _ => .error "no database"
    Globals.init.seenIPs "1.2.3.4" = none ∧ Globals.init.lastPrinted ≠ "1.2.3.4" ∧
    observationsOf "1.2.3.4" [("1.2.3.4", Clock.instant 0)] = 1 ∧
    emitted (seen_addrs ⟨"", 1, "", -1⟩ City Globals.init
      [("1.2.3.4", Clock.instant 0)]).events = [] ∧
    (seen_addrs ⟨"", 1, "", -1⟩ City Globals.init
      [("1.2.3.4", Clock.instant 0)]).st.count "1.2.3.4" = some 0 ∧
    emitted (seen_addrs ⟨"", 1, "", 0⟩ City Globals.init
      [("1.2.3.4", ⟨0, 1, 1⟩)]).events = [] := by
  decide

/-- C4, amended: for every threshold `N ≥ 1` and every address `a` not yet in
the map, take `N` observations of `a` (observations of other addresses may come
in between) such that the staleness check of the first reads the clock at most
`timeoff` after the reading that dates the new record, and each later one at
most `timeoff` after the time stored by the previous one; suppose the lookups
made for the addresses involved give texts `getEN` can put together.  Then the
first `N - 1` observations log nothing for `a`, the `N`-th stores count `N`, and
it logs exactly one line for `a` if `lastPrinted` differs from `a` at that
moment, and none if `lastPrinted` equals `a`. -/
theorem streak_emits_at_threshold (fl : Flags) (City : Lookup) (g : Globals) (a : String)
    (pre : List (String × Clock)) (c : Clock) (b : String)
    (hN : 1 ≤ fl.printAfter) (hnew : g.seenIPs a = none)
    (hcount : ((observationsOf a pre + 1 : Nat) : Int) = fl.printAfter)
    (hwin : withinWindow fl.timeoff a none (pre ++ [(a, c)]) = true)
    (hfmt : ∀ x ∈ pre, geoinfo (City x.1) ≠ none) (hb : geoinfo (City a) = some b) :
    (seen_addrs fl City g pre).panicked = false ∧
    a ∉ emitted (seen_addrs fl City g pre).events ∧
    (seen_addr fl City (seen_addrs fl City g pre).st a c).st.count a = some fl.printAfter ∧
    ((seen_addrs fl City g pre).st.lastPrinted ≠ a →
      (seen_addr fl City (seen_addrs fl City g pre).st a c).events
        = [.print_addr a, .Printf a b] ∧
      (emitted (seen_addrs fl City g (pre ++ [(a, c)])).events).count a = 1) ∧
    ((seen_addrs fl City g pre).st.lastPrinted = a →
      emitted (seen_addr fl City (seen_addrs fl City g pre).st a c).events = []) := by
  have _ := hN
  rw [withinWindow_append, Bool.and_eq_true] at hwin
  obtain ⟨hwin1, hwin2⟩ := hwin
  have hlt : (0 : Int) + observationsOf a pre < fl.printAfter := by
    rw [← hcount]
    push_cast
    omega
  obtain ⟨hpan, htr, hno⟩ := streak_before_threshold fl City a pre g 0 none ⟨rfl, hnew⟩ hwin1 hlt hfmt
  simp only [withinWindow, if_true, Bool.and_true, decide_eq_true_eq] at hwin2
  obtain ⟨hrn, -⟩ := record_tracked fl (seen_addrs fl City g pre).st a c _ _ htr hwin2
  have htrig : fl.printAfter = (seen_addr.record fl (seen_addrs fl City g pre).st a c).nSeen := by
    rw [hrn, ← hcount]
    push_cast
    ring
  refine ⟨hpan, hno, ?_, ?_, ?_⟩
  · rw [seen_addr_count, ← htrig]
  · intro hlast
    have hev : (seen_addr fl City (seen_addrs fl City g pre).st a c).events
        = [.print_addr a, .Printf a b] :=
      seen_addr_logs fl City _ a c b htrig (Ne.symm hlast) hb
    refine ⟨hev, ?_⟩
    rw [seen_addrs_append fl City pre [(a, c)] g hpan]
    simp only [emitted_append, seen_addrs_single, hev, emitted, List.count_append,
      List.count_eq_zero_of_not_mem hno, List.count_singleton_self]
  · intro hlast
    rw [seen_addr_suppressed fl City _ a c htrig hlast.symm]
    rfl

/-- C4, amended, on the scenario `-p 3 -t 2s` with observations at 0 s, 0.5 s
and 0.9 s and another address in between. -/
theorem streak_emits_at_threshold_witness :
    (seen_addr ⟨"", 3, "", 2000000000⟩ (fun _ => .error "no database")
        (seen_addrs ⟨"", 3, "", 2000000000⟩ (fun _ => .error "no database") Globals.init
          [("1.2.3.4", Clock.instant 0), ("8.8.8.8", Clock.instant 200000000),
           ("1.2.3.4", Clock.instant 500000000)]).st
        "1.2.3.4" (Clock.instant 900000000)).events
      = [.print_addr "1.2.3.4", .Printf "1.2.3.4" "no database"] :=
  ((streak_emits_at_threshold ⟨"", 3, "", 2000000000⟩ (fun _ => .error "no database")
      Globals.init "1.2.3.4"
      [("1.2.3.4", Clock.instant 0), ("8.8.8.8", Clock.instant 200000000),
       ("1.2.3.4", Clock.instant 500000000)]
      (Clock.instant 900000000) "no database" (by decide) rfl (by decide) (by decide)
      (by decide) rfl).2.2.2.1 (by decide)).1

theorem getLast?_cons_getD (a d : String) (es : List String) :
    ((a :: es).getLast?).getD d = (es.getLast?).getD a := by
  cases es with
  | nil => rfl
  | cons e es =>
    rw [List.getLast?_cons_cons, List.getLast?_eq_getLast _ (List.cons_ne_nil e es)]
    rfl

theorem seen_addrs_inv (fl : Flags) (City : Lookup) :
    ∀ (obs : List (String × Clock)) (g : Globals),
      List.Chain (· ≠ ·) g.lastPrinted (emitted (seen_addrs fl City g obs).events) ∧
      (seen_addrs fl City g obs).st.lastPrinted
        = ((emitted (seen_addrs fl City g obs).events).getLast?).getD g.lastPrinted ∧
      ∀ x ∈ emitted (seen_addrs fl City g obs).events, geoinfo (City x) ≠ none := by
  intro obs
  induction obs with
  | nil => intro g; simp [seen_addrs, emitted]
  | cons xc rest ih =>
    obtain ⟨a, c⟩ := xc
    intro g
    obtain ⟨ih1, ih2, ih3⟩ := ih (seen_addr fl City g a c).st
    rcases seen_addr_step fl City g a c with ⟨h1, h2, -⟩ | ⟨h1, h2, h3, h4, h5⟩
    · cases hp : (seen_addr fl City g a c).panicked with
      | true => simp [seen_addrs, hp, h1, h2]
      | false =>
        simp only [seen_addrs, hp, Bool.false_eq_true, if_false, emitted_append, h1,
          List.nil_append]
        rw [h2] at ih1 ih2
        exact ⟨ih1, ih2, ih3⟩
    · simp only [seen_addrs, h5, Bool.false_eq_true, if_false, emitted_append, h1,
        List.singleton_append, List.chain_cons, getLast?_cons_getD, List.mem_cons]
      rw [h3] at ih1 ih2
      refine ⟨⟨Ne.symm h2, ih1⟩, ih2, ?_⟩
      rintro x (hx | hx)
      · rw [hx]; exact h4
      · exact ih3 x hx

/-- C6: in every run from the initial variables no two consecutive logged lines
are for the same address.  After a line for `a`, while it is the last line
logged, an observation of `a` logs nothing, trigger or not; once a line for
another address has been logged since, the next observation of `a` that enters
`print_addr` logs a line for `a` again. -/
theorem no_consecutive_duplicates (fl : Flags) (City : Lookup)
    (obs : List (String × Clock)) (a : String) (c : Clock) :
    List.Chain' (· ≠ ·) (emitted (seen_addrs fl City Globals.init obs).events) ∧
    ((emitted (seen_addrs fl City Globals.init obs).events).getLast? = some a →
      emitted (seen_addr fl City (seen_addrs fl City Globals.init obs).st a c).events = []) ∧
    (a ∈ emitted (seen_addrs fl City Globals.init obs).events →
      (emitted (seen_addrs fl City Globals.init obs).events).getLast? ≠ some a →
      Event.print_addr a ∈ (seen_addr fl City (seen_addrs fl City Globals.init obs).st a c).events →
      emitted (seen_addr fl City (seen_addrs fl City Globals.init obs).st a c).events = [a]) := by
  obtain ⟨h1, h2, h3⟩ := seen_addrs_inv fl City obs Globals.init
  refine ⟨?_, ?_, ?_⟩
  · exact (List.chain'_cons'.mp h1).2
  · intro hlast
    rw [hlast] at h2
    rcases seen_addr_step fl City (seen_addrs fl City Globals.init obs).st a c
      with ⟨k1, -, -⟩ | ⟨-, k2, -, -, -⟩
    · exact k1
    · exact absurd h2.symm k2
  · intro hmem hlast htrig
    have hne : a ≠ (seen_addrs fl City Globals.init obs).st.lastPrinted := by
      rw [h2]
      cases hl : (emitted (seen_addrs fl City Globals.init obs).events).getLast? with
      | none =>
        rw [List.getLast?_eq_none_iff] at hl
        rw [hl] at hmem
        exact absurd hmem (List.not_mem_nil _)
      | some y =>
        rw [hl] at hlast
        exact fun h => hlast (by rw [Option.getD_some] at h; rw [h])
    have hfmt := h3 a hmem
    obtain ⟨b, hb⟩ := Option.ne_none_iff_exists'.mp hfmt
    by_cases ht : fl.printAfter
        = (seen_addr.record fl (seen_addrs fl City Globals.init obs).st a c).nSeen
    · rw [seen_addr_logs fl City _ a c b ht hne hb]
      rfl
    · rw [seen_addr_quiet fl City _ a c ht] at htrig
      exact absurd htrig (List.not_mem_nil _)

/-- C6 with `-p 1 -t 2`: after lines for 1.1.1.1 and 2.2.2.2 and an idle gap,
the next trigger for 1.1.1.1 logs again. -/
theorem no_consecutive_duplicates_witness :
    emitted (seen_addr ⟨"", 1, "", 2⟩ (fun _ => .error "no database")
      (seen_addrs ⟨"", 1, "", 2⟩ (fun _ => .error "no database") Globals.init
        [("1.1.1.1", Clock.instant 0), ("2.2.2.2", Clock.instant 0),
         ("1.1.1.1", Clock.instant 10)]).st
      "1.1.1.1" (Clock.instant 11)).events = ["1.1.1.1"] :=
  (no_consecutive_duplicates ⟨"", 1, "", 2⟩ (fun _ => .error "no database")
    [("1.1.1.1", Clock.instant 0), ("2.2.2.2", Clock.instant 0), ("1.1.1.1", Clock.instant 10)]
    "1.1.1.1" (Clock.instant 11)).2.2 (by decide) (by decide) (by decide)

/-! ### C7 and C8: the addresses handed to the tracker -/

theorem ignored_eq_any (rs : List Regexp) (a : String) :
    mymain.ignored rs a = rs.any (fun r => r.MatchString a) := by
  induction rs with
  | nil => rfl
  | cons r rs ih =>
    cases h : r.MatchString a <;> simp [mymain.ignored, h, ih]

theorem ADDRS_eq_seen_addrs (fl : Flags) (City : Lookup) (ignoreRegex : List Regexp)
    (clock : Nat → Clock) :
    ∀ (addrs : List String) (g : Globals) (k : Nat),
      mymain.ADDRS fl City ignoreRegex clock g addrs k
        = seen_addrs fl City g
            (stamp clock k (addrs.filter (fun a => !ignoreRegex.any (fun r => r.MatchString a)))) := by
  intro addrs
  induction addrs with
  | nil => intro g k; rfl
  | cons a addrs ih =>
    intro g k
    cases h : mymain.ignored ignoreRegex a with
    | true =>
      have h2 := h
      rw [ignored_eq_any] at h2
      simp only [mymain.ADDRS, h, if_true, List.filter_cons, h2, Bool.not_true,
        Bool.false_eq_true, if_false]
      exact ih g k
    | false =>
      have h2 := h
      rw [ignored_eq_any] at h2
      simp only [mymain.ADDRS, h, Bool.false_eq_true, if_false, List.filter_cons, h2,
        Bool.not_false, if_true, stamp, seen_addrs]
      rw [ih]

theorem stamp_addresses (clock : Nat → Clock) :
    ∀ (addrs : List String) (k : Nat), (stamp clock k addrs).map Prod.fst = addrs := by
  intro addrs
  induction addrs with
  | nil => intro k; rfl
  | cons a addrs ih => intro k; simp [stamp, ih]

/-- C7: for every input line and every list of ignore patterns, handling the
line is calling `seen_addr` in turn on the substrings found by the address
pattern from which those matched by at least one ignore pattern are removed,
in the same order and with duplicates kept.  On a line with 10.0.0.5 and
8.8.8.8 (twice) and the ignore list `10\..*` the calls are for 8.8.8.8 and
8.8.8.8. -/
theorem line_hands_unignored_addresses (fl : Flags) (City : Lookup)
    (ignoreRegex : List Regexp) (clock : Nat → Clock) (g : Globals) (l : String) :
    mymain.line fl City ignoreRegex clock g l
      = seen_addrs fl City g
          (stamp clock 0 ((ADDRRE.FindAllString l).filter
            (fun a => !ignoreRegex.any (fun r => r.MatchString a)))) ∧
    (stamp clock 0 ((ADDRRE.FindAllString l).filter
        (fun a => !ignoreRegex.any (fun r => r.MatchString a)))).map Prod.fst
      = (ADDRRE.FindAllString l).filter
          (fun a => !ignoreRegex.any (fun r => r.MatchString a)) ∧
    (mymain.ignoreRegex (Split "10\\..*" ',')).map
        (fun rs => (ADDRRE.FindAllString "IP 10.0.0.5.22 > 8.8.8.8.53: to 8.8.8.8").filter
          (fun a => !rs.any (fun r => r.MatchString a)))
      = some ["8.8.8.8", "8.8.8.8"] := by
  refine ⟨?_, stamp_addresses clock _ 0, by decide⟩
  unfold mymain.line
  simp only
  split
  · rename_i h
    have hnil : ADDRRE.FindAllString l = [] := List.length_eq_zero.mp h.symm
    rw [hnil]
    rfl
  · exact ADDRS_eq_seen_addrs fl City ignoreRegex clock _ g 0

/-- C8 at a failing input: for the ignore expression `1\.1\.1\.1|2\.2\.2\.2`
the pattern compiled from `"^" + ex + "$"` is the alternation of
`^1\.1\.1\.1` and `2\.2\.2\.2$`; it matches 1.1.1.15, of which the expression
matches only a prefix, and 12.2.2.2, of which it matches only a suffix, so
both addresses are dropped: a line with 1.1.1.15, 12.2.2.2 and 8.8.8.8 hands
only 8.8.8.8 to the tracker. -/
theorem anchors_do_not_span_alternation :
    Regexp.Compile ("^" ++ "1\\.1\\.1\\.1|2\\.2\\.2\\.2" ++ "$")
      = some (.alternate
          (.concat (.concat (.concat (.concat (.concat (.concat (.concat .beginText
            (.literal '1')) (.literal '.')) (.literal '1')) (.literal '.')) (.literal '1'))
            (.literal '.')) (.literal '1'))
          (.concat (.concat (.concat (.concat (.concat (.concat (.concat (.literal '2')
            (.literal '.')) (.literal '2')) (.literal '.')) (.literal '2')) (.literal '.'))
            (.literal '2')) .endText)) ∧
    (Regexp.Compile "1\\.1\\.1\\.1|2\\.2\\.2\\.2").map
        (fun ex => (ex.matchesWhole "1.1.1.15", ex.matchesWhole "12.2.2.2"))
      = some (false, false) ∧
    (mymain.ignoreRegex (Split "1\\.1\\.1\\.1|2\\.2\\.2\\.2" ',')).map
        (fun rs => (mymain.ignored rs "1.1.1.15", mymain.ignored rs "12.2.2.2"))
      = some (true, true) ∧
    (mymain.ignoreRegex (Split "1\\.1\\.1\\.1|2\\.2\\.2\\.2" ',')).map
        (fun rs => (ADDRRE.FindAllString "IP 1.1.1.15 > 12.2.2.2: to 8.8.8.8").filter
          (fun a => !rs.any (fun r => r.MatchString a)))
      = some ["8.8.8.8"] := by
  decide

/-! ### C11, C12 and C18: `getEN` -/

theorem getEN_preferred_eq (m : Names) :
    getEN.preferred m ["en", "es", "fr", "de"]
      = match mapGet m "en" with
        | some v => some v
        | none =>
          match mapGet m "es" with
          | some v => some v
          | none =>
            match mapGet m "fr" with
            | some v => some v
            | none => mapGet m "de" := by
  have h1 : ToLower (TrimSpace "en") = "en" := by decide
  have h2 : ToLower (TrimSpace "es") = "es" := by decide
  have h3 : ToLower (TrimSpace "fr") = "fr" := by decide
  have h4 : ToLower (TrimSpace "de") = "de" := by decide
  have k1 : TrimSpace (ToLower "en") = "en" := by decide
  have k2 : TrimSpace (ToLower "es") = "es" := by decide
  have k3 : TrimSpace (ToLower "fr") = "fr" := by decide
  have k4 : TrimSpace (ToLower "de") = "de" := by decide
  have l1 : (0 = len "en") = False := by decide
  have l2 : (0 = len "es") = False := by decide
  have l3 : (0 = len "fr") = False := by decide
  have l4 : (0 = len "de") = False := by decide
  simp only [getEN.preferred, h1, h2, h3, h4, k1, k2, k3, k4, l1, l2, l3, l4, if_false]
  cases mapGet m "en" <;> cases mapGet m "es" <;> cases mapGet m "fr" <;>
    cases mapGet m "de" <;> rfl

theorem getEN_of_preferred (m : Names) (v : String)
    (h : getEN.preferred m ["en", "es", "fr", "de"] = some v) : getEN m = some v := by
  simp [getEN, h]

/-- C11: for every name mapping that holds at least one of the keys "en",
"es", "fr", "de", `getEN` returns the value stored under the first of these
keys, in this order, that is present: the value under "en" whenever "en" is
present, else the one under "es", else the one under "fr", else the one under
"de", whatever other keys the mapping holds and whatever the value is (the
empty string included). -/
theorem getEN_prefers_en_es_fr_de (m : Names) (v : String) :
    (mapGet m "en" = some v → getEN m = some v) ∧
    (mapGet m "en" = none → mapGet m "es" = some v → getEN m = some v) ∧
    (mapGet m "en" = none → mapGet m "es" = none → mapGet m "fr" = some v →
      getEN m = some v) ∧
    (mapGet m "en" = none → mapGet m "es" = none → mapGet m "fr" = none →
      mapGet m "de" = some v → getEN m = some v) := by
  refine ⟨?_, ?_, ?_, ?_⟩
  · intro h
    exact getEN_of_preferred m v (by rw [getEN_preferred_eq, h])
  · intro h1 h2
    exact getEN_of_preferred m v (by rw [getEN_preferred_eq, h1, h2])
  · intro h1 h2 h3
    exact getEN_of_preferred m v (by rw [getEN_preferred_eq, h1, h2, h3])
  · intro h1 h2 h3 h4
    exact getEN_of_preferred m v (by rw [getEN_preferred_eq, h1, h2, h3, h4])

/-- C11 on mappings with other keys in front and an empty value. -/
theorem getEN_prefers_en_es_fr_de_witness :
    getEN [("ja", "x"), ("de", "Deutsch"), ("en", "")] = some "" ∧
    getEN [("ja", "x"), ("de", "Deutsch"), ("es", "Esp")] = some "Esp" ∧
    getEN [("ja", "x"), ("de", "Deutsch"), ("fr", "")] = some "" ∧
    getEN [("ja", "x"), ("de", "Deutsch")] = some "Deutsch" :=
  ⟨(getEN_prefers_en_es_fr_de [("ja", "x"), ("de", "Deutsch"), ("en", "")] "").1 (by decide),
   (getEN_prefers_en_es_fr_de [("ja", "x"), ("de", "Deutsch"), ("es", "Esp")] "Esp").2.1
     (by decide) (by decide),
   (getEN_prefers_en_es_fr_de [("ja", "x"), ("de", "Deutsch"), ("fr", "")] "").2.2.1
     (by decide) (by decide) (by decide),
   (getEN_prefers_en_es_fr_de [("ja", "x"), ("de", "Deutsch")] "Deutsch").2.2.2
     (by decide) (by decide) (by decide) (by decide)⟩

theorem len_eq_zero (s : String) : len s = 0 ↔ s = "" := by
  obtain ⟨cs⟩ := s
  simp only [len, String.utf8ByteSize_mk, String.utf8Len_eq_zero]
  constructor
  · intro h; rw [h]
  · intro h; exact congrArg String.data h

theorem collect_keys (m : Names) :
    ∀ ks name : String,
      (getEN.collect m (ks, name)).1.data
        = ks.data ++ m.flatMap (fun kv => '|' :: kv.1.data) := by
  induction m with
  | nil => intro ks name; simp [getEN.collect]
  | cons kv m ih =>
    obtain ⟨k, v⟩ := kv
    intro ks name
    simp only [getEN.collect, ih, String.data_append, List.flatMap_cons, List.append_assoc]
    rfl

theorem collect_name (m : Names) :
    ∀ ks name0 : String,
      ((getEN.collect m (ks, name0)).2 = name0 ∧ ∀ w ∈ m.map Prod.snd, len w ≤ len name0) ∨
      (∃ pre post : List String,
        m.map Prod.snd = pre ++ (getEN.collect m (ks, name0)).2 :: post ∧
        len name0 < len (getEN.collect m (ks, name0)).2 ∧
        (∀ w ∈ pre, len w < len (getEN.collect m (ks, name0)).2) ∧
        (∀ w ∈ post, len w ≤ len (getEN.collect m (ks, name0)).2)) := by
  induction m with
  | nil => intro ks name0; left; simp [getEN.collect]
  | cons kv m ih =>
    obtain ⟨k, v⟩ := kv
    intro ks name0
    simp only [getEN.collect, List.map_cons]
    by_cases hv : len v > len name0
    · simp only [hv, if_true]
      rcases ih (ks ++ ("|" ++ k)) v with ⟨h1, h2⟩ | ⟨pre, post, h1, h2, h3, h4⟩
      · right
        refine ⟨[], m.map Prod.snd, ?_, ?_, ?_, ?_⟩
        · rw [h1]; rfl
        · rw [h1]; exact hv
        · simp
        · rw [h1]; exact h2
      · right
        refine ⟨v :: pre, post, ?_, ?_, ?_, h4⟩
        · rw [h1]; rfl
        · omega
        · intro w hw
          rcases List.mem_cons.mp hw with h | h
          · rw [h]; exact h2
          · exact h3 w h
    · simp only [hv, if_false]
      rcases ih (ks ++ ("|" ++ k)) name0 with ⟨h1, h2⟩ | ⟨pre, post, h1, h2, h3, h4⟩
      · left
        refine ⟨h1, ?_⟩
        intro w hw
        rcases List.mem_cons.mp hw with h | h
        · rw [h]; omega
        · exact h2 w h
      · right
        refine ⟨v :: pre, post, ?_, h2, ?_, h4⟩
        · rw [h1]; rfl
        · intro w hw
          rcases List.mem_cons.mp hw with h | h
          · rw [h]; omega
          · exact h3 w h

theorem intercalate_go_data (sep : String) (l : List String) :
    ∀ acc : String,
      (String.intercalate.go acc sep l).data
        = acc.data ++ l.flatMap (fun k => sep.data ++ k.data) := by
  induction l with
  | nil => intro acc; simp [String.intercalate.go]
  | cons k l ih =>
    intro acc
    simp [String.intercalate.go, ih, List.append_assoc]

theorem strip_all_pipes (cs : List Char) : getEN.strip cs = none ↔ ∀ c ∈ cs, c = '|' := by
  induction cs with
  | nil => simp [getEN.strip]
  | cons c cs ih =>
    by_cases h : c = '|'
    · simp [getEN.strip, h, ih]
    · simp [getEN.strip, h]

theorem getEN_fallback_eq (m : Names)
    (h : getEN.preferred m ["en", "es", "fr", "de"] = none) :
    getEN m =
      if 0 = len (getEN.collect m ("", "")).1 then some "Missing"
      else
        match getEN.strip (getEN.collect m ("", "")).1.data with
        | none => none
        | some ks => some ("[" ++ String.mk ks ++ "]" ++ (getEN.collect m ("", "")).2) := by
  simp only [getEN, h]

theorem preferred_none_iff (m : Names) :
    getEN.preferred m ["en", "es", "fr", "de"] = none ↔
      (mapGet m "en" = none ∧ mapGet m "es" = none ∧ mapGet m "fr" = none ∧
        mapGet m "de" = none) := by
  rw [getEN_preferred_eq]
  cases mapGet m "en" <;> cases mapGet m "es" <;> cases mapGet m "fr" <;>
    cases mapGet m "de" <;> simp

theorem collect_keys_nil (m : Names) :
    (getEN.collect m ("", "")).1.data = m.flatMap (fun kv => '|' :: kv.1.data) := by
  rw [collect_keys]
  rfl

theorem len_collect_zero_iff (m : Names) : 0 = len (getEN.collect m ("", "")).1 ↔ m = [] := by
  rw [eq_comm, len_eq_zero]
  constructor
  · intro h
    have hd := congrArg String.data h
    rw [collect_keys_nil] at hd
    cases m with
    | nil => rfl
    | cons kv m => simp at hd
  · intro h
    rw [h]
    rfl

theorem flatMap_keys (m : Names) :
    m.flatMap (fun kv => '|' :: kv.1.data)
      = (m.map Prod.fst).flatMap (fun k => "|".data ++ k.data) := by
  induction m with
  | nil => rfl
  | cons kv m ih =>
    simp only [List.flatMap_cons, List.map_cons, ih]
    rfl

/-- C12: for every name mapping that holds none of the keys "en", "es",
"fr", "de": when it is empty `getEN` returns "Missing"; when it is not empty
and its keys are not empty and contain no '|', `getEN` returns "[", the keys
joined with "|" in the order of iteration (no pipe in front), "]" and then a
value of maximal length in bytes, the first such value in the order of
iteration. -/
theorem getEN_without_preferred (m : Names)
    (hnone : mapGet m "en" = none ∧ mapGet m "es" = none ∧ mapGet m "fr" = none ∧
      mapGet m "de" = none) :
    (m = [] → getEN m = some "Missing") ∧
    (m ≠ [] → (∀ kv ∈ m, kv.1 ≠ "" ∧ '|' ∉ kv.1.data) →
      ∃ (name : String) (pre post : List String),
        getEN m = some ("[" ++ String.intercalate "|" (m.map Prod.fst) ++ "]" ++ name) ∧
        m.map Prod.snd = pre ++ name :: post ∧
        (∀ w ∈ pre, len w < len name) ∧ (∀ w ∈ post, len w ≤ len name)) := by
  have hpref := (preferred_none_iff m).mpr hnone
  constructor
  · intro hm
    rw [getEN_fallback_eq m hpref, if_pos ((len_collect_zero_iff m).mpr hm)]
  · intro hm hkeys
    have hlen : ¬ 0 = len (getEN.collect m ("", "")).1 := fun h => hm ((len_collect_zero_iff m).mp h)
    rw [getEN_fallback_eq m hpref, if_neg hlen]
    cases m with
    | nil => exact absurd rfl hm
    | cons kv rest =>
      obtain ⟨k, v⟩ := kv
      obtain ⟨hk1, hk2⟩ := hkeys (k, v) (List.mem_cons_self _ _)
      have hstrip : getEN.strip (getEN.collect ((k, v) :: rest) ("", "")).1.data
          = some (String.intercalate "|" (((k, v) :: rest).map Prod.fst)).data := by
        rw [collect_keys_nil, List.flatMap_cons, flatMap_keys]
        simp only [List.map_cons, String.intercalate, intercalate_go_data]
        obtain ⟨kd⟩ := k
        cases kd with
        | nil => exact absurd rfl hk1
        | cons c cs =>
          have hc : c ≠ '|' := fun h => hk2 (by simp [h])
          simp [getEN.strip, hc]
      rw [hstrip]
      simp only
      rcases collect_name ((k, v) :: rest) "" "" with ⟨h1, h2⟩ | ⟨pre, post, h1, -, h3, h4⟩
      · refine ⟨v, [], rest.map Prod.snd, ?_, rfl, by simp, ?_⟩
        · have hv : len v ≤ len "" := h2 v (by simp)
          have hv0 : v = "" := (len_eq_zero v).mp (Nat.le_zero.mp hv)
          rw [h1, hv0]
        · intro w hw
          have hw0 : len w ≤ len "" := h2 w (by simp [hw])
          have : len "" = 0 := rfl
          omega
      · exact ⟨_, pre, post, rfl, h1, h3, h4⟩

/-- C12 on an empty mapping and on a mapping with two values of the same
length. -/
theorem getEN_without_preferred_witness :
    getEN [] = some "Missing" ∧
    ∃ (name : String) (pre post : List String),
      getEN [("ja", "x"), ("ru", "yy"), ("zh", "zz")]
        = some ("[" ++ String.intercalate "|" ["ja", "ru", "zh"] ++ "]" ++ name) ∧
      ["x", "yy", "zz"] = pre ++ name :: post ∧
      (∀ w ∈ pre, len w < len name) ∧ (∀ w ∈ post, len w ≤ len name) :=
  ⟨(getEN_without_preferred [] (by decide)).1 rfl,
   (getEN_without_preferred [("ja", "x"), ("ru", "yy"), ("zh", "zz")] (by decide)).2
     (by decide) (by decide)⟩

/-- C18 fails: `getEN` does not return for the mapping with the single key "",
nor for any mapping without "en", "es", "fr", "de" whose keys are all empty or
made of '|' only: the stripping loop empties `ks` and then indexes `ks[0]`,
which panics.  These are the only mappings on which it does not return. -/
theorem getEN_panics_on_pipe_keys :
    getEN [("", "x")] = none ∧
    getEN [("|", "x"), ("", "y")] = none ∧
    ∀ m : Names, getEN m = none ↔
      (mapGet m "en" = none ∧ mapGet m "es" = none ∧ mapGet m "fr" = none ∧
        mapGet m "de" = none) ∧ m ≠ [] ∧ ∀ kv ∈ m, ∀ c ∈ kv.1.data, c = '|' := by
  refine ⟨by decide, by decide, ?_⟩
  intro m
  have hall : (∀ c ∈ m.flatMap (fun kv => '|' :: kv.1.data), c = '|')
      ↔ ∀ kv ∈ m, ∀ c ∈ kv.1.data, c = '|' := by
    simp only [List.mem_flatMap, List.mem_cons]
    constructor
    · intro h kv hkv c hc
      exact h c ⟨kv, hkv, Or.inr hc⟩
    · rintro h c ⟨kv, hkv, hc | hc⟩
      · exact hc
      · exact h kv hkv c hc
  cases hp : getEN.preferred m ["en", "es", "fr", "de"] with
  | some v =>
    rw [getEN_of_preferred m v hp]
    have := (preferred_none_iff m).not.mp (by rw [hp]; simp)
    simp [this]
  | none =>
    rw [getEN_fallback_eq m hp]
    have hpn := (preferred_none_iff m).mp hp
    by_cases hm : m = []
    · rw [if_pos ((len_collect_zero_iff m).mpr hm)]
      simp [hm]
    · rw [if_neg (fun h => hm ((len_collect_zero_iff m).mp h))]
      cases hs : getEN.strip (getEN.collect m ("", "")).1.data with
      | none =>
        have h2 := (strip_all_pipes _).mp hs
        rw [collect_keys_nil, hall] at h2
        simp only [true_iff]
        exact ⟨hpn, hm, h2⟩
      | some ks =>
        simp only [reduceCtorEq, false_iff, not_and]
        intro _ _ h3
        have h4 := (strip_all_pipes (getEN.collect m ("", "")).1.data).mpr
          (by rw [collect_keys_nil, hall]; exact h3)
        rw [hs] at h4
        exact absurd h4 (by simp)

/-! ### C13: the line logged -/

theorem pad15_length (a : String) : (pad15 a).length = max 15 a.length := by
  simp only [pad15, String.length_append, String.mk_length, List.length_replicate]
  omega

theorem pad15_long (a : String) (h : 15 ≤ a.length) : pad15 a = a := by
  have h0 : 15 - a.length = 0 := by omega
  simp only [pad15, h0, List.replicate_zero]
  exact String.ext (by simp)

/-- C13: every line logged for an address `a` with the text `b` is `a` with
spaces in front up to a width of fifteen characters (`a` itself, not cut, when
it has fifteen characters or more), then exactly two spaces, then `b`, then a
line end. -/
theorem logged_line_format (City : Lookup) (g : Globals) (a b : String) :
    (Event.Printf a b).text = some (pad15 a ++ "  " ++ b ++ "\n") ∧
    pad15 a = String.mk (List.replicate (15 - a.length) ' ') ++ a ∧
    (pad15 a).length = max 15 a.length ∧
    (15 ≤ a.length → pad15 a = a) ∧
    (∀ e ∈ (print_addr City g a).events, ∀ t, e.text = some t →
      ∃ body, geoinfo (City a) = some body ∧ t = pad15 a ++ "  " ++ body ++ "\n") := by
  refine ⟨rfl, rfl, pad15_length a, pad15_long a, ?_⟩
  intro e he t ht
  by_cases h : a = g.lastPrinted
  · rw [print_addr_suppressed City g a h] at he
    simp only [List.mem_singleton] at he
    rw [he] at ht
    exact absurd ht (by simp [Event.text])
  · cases hb : geoinfo (City a) with
    | none =>
      rw [print_addr_panics City g a h hb] at he
      simp only [List.mem_singleton] at he
      rw [he] at ht
      exact absurd ht (by simp [Event.text])
    | some body =>
      rw [print_addr_logs City g a body h hb] at he
      simp only [List.mem_cons, List.mem_singleton, List.not_mem_nil, or_false] at he
      rcases he with he | he
      · rw [he] at ht
        exact absurd ht (by simp [Event.text])
      · rw [he] at ht
        exact ⟨body, rfl, (Option.some.inj ht).symm⟩

/-- C13 on a short and on a long address. -/
theorem logged_line_format_witness :
    pad15 "999.999.999.999" = "999.999.999.999" ∧
    (∃ body, geoinfo ((fun _ => .error "no database" : Lookup) "1.2.3.4") = some body ∧
      "        1.2.3.4  no database\n" = pad15 "1.2.3.4" ++ "  " ++ body ++ "\n") :=
  ⟨(logged_line_format (fun _ => .error "no database") Globals.init "999.999.999.999" "").2.2.2.1
     (by decide),
   (logged_line_format (fun _ => .error "no database") Globals.init "1.2.3.4" "").2.2.2.2
     (.Printf "1.2.3.4" "no database") (by decide) "        1.2.3.4  no database\n"
     (by decide)⟩

/-! ### C14 and C15: the entries of the map -/

theorem record_nSeen (fl : Flags) (g : Globals) (a : String) (c : Clock) :
    (seen_addr.record fl g a c).nSeen
      = if fl.timeoff < c.atCheck.Sub (((g.seenIPs a).map seenIP.lastSeen).getD c.atNew) then 0
        else ((g.seenIPs a).map seenIP.nSeen).getD 0 + 1 := by
  cases h : g.seenIPs a with
  | none =>
    simp only [seen_addr.record, h, Option.map_none', Option.getD_none]
    split <;> simp
  | some r =>
    simp only [seen_addr.record, h, Option.map_some', Option.getD_some]
    split <;> rfl

theorem seen_addr_nonneg (fl : Flags) (City : Lookup) (g : Globals) (a : String) (c : Clock)
    (h : ∀ x r, g.seenIPs x = some r → 0 ≤ r.nSeen) :
    ∀ x r, (seen_addr fl City g a c).st.seenIPs x = some r → 0 ≤ r.nSeen := by
  intro x r hx
  rw [seen_addr_seenIPs] at hx
  by_cases hxa : x = a
  · subst hxa
    rw [Function.update_same] at hx
    rw [← Option.some.inj hx, record_nSeen]
    split
    · exact le_refl _
    · cases hg : g.seenIPs x with
      | none => simp
      | some r0 =>
        have := h x r0 hg
        simp only [Option.map_some', Option.getD_some]
        omega
  · rw [Function.update_noteq hxa] at hx
    exact h x r hx

theorem seen_addrs_nonneg (fl : Flags) (City : Lookup) :
    ∀ (obs : List (String × Clock)) (g : Globals),
      (∀ x r, g.seenIPs x = some r → 0 ≤ r.nSeen) →
      ∀ x r, (seen_addrs fl City g obs).st.seenIPs x = some r → 0 ≤ r.nSeen := by
  intro obs
  induction obs with
  | nil => intro g h; exact h
  | cons ac rest ih =>
    obtain ⟨a, c⟩ := ac
    intro g h
    have hstep := seen_addr_nonneg fl City g a c h
    cases hp : (seen_addr fl City g a c).panicked with
    | true =>
      simp only [seen_addrs, hp, if_true]
      exact hstep
    | false =>
      simp only [seen_addrs, hp, Bool.false_eq_true, if_false]
      exact ih _ hstep

/-- C14, as stated, fails: with `-p 3 -t 2s` (a non-negative window), from the
empty map, an address observed at 0 s and again at 5 s is left with count 0,
which is not at least 1. -/
theorem C14_counterexample :
    (seen_addrs ⟨"", 3, "", 2000000000⟩ (fun _ => .error "no database") Globals.init
      [("1.2.3.4", Clock.instant 0), ("1.2.3.4", Clock.instant 5000000000)]).st.seenIPs "1.2.3.4"
      = some ⟨"1.2.3.4", 0, 5000000000⟩ ∧
    ¬ (1 : Int) ≤ 0 := by
  decide

/-- C14, amended: in every state reached from the empty map by any sequence of
observations, for any threshold and any idle window, every entry of the map
has count at least 0; the count stored by an observation is 0 when the
observation comes more than the idle window after the `lastSeen` it finds, and
otherwise the previous count plus one, which is at least 1. -/
theorem counts_never_negative (fl : Flags) (City : Lookup) (obs : List (String × Clock))
    (a : String) (c : Clock) :
    (∀ x r, (seen_addrs fl City Globals.init obs).st.seenIPs x = some r → 0 ≤ r.nSeen) ∧
    (fl.timeoff < c.atCheck.Sub
        ((((seen_addrs fl City Globals.init obs).st.seenIPs a).map seenIP.lastSeen).getD c.atNew) →
      (seen_addr fl City (seen_addrs fl City Globals.init obs).st a c).st.count a = some 0) ∧
    (¬ fl.timeoff < c.atCheck.Sub
        ((((seen_addrs fl City Globals.init obs).st.seenIPs a).map seenIP.lastSeen).getD c.atNew) →
      ∃ n : Int, 1 ≤ n ∧
        (seen_addr fl City (seen_addrs fl City Globals.init obs).st a c).st.count a = some n ∧
        n = (((seen_addrs fl City Globals.init obs).st.seenIPs a).map seenIP.nSeen).getD 0 + 1) := by
  have hinv := seen_addrs_nonneg fl City obs Globals.init (by intro x r h; simp [Globals.init] at h)
  refine ⟨hinv, ?_, ?_⟩
  · intro hstale
    rw [seen_addr_count, record_nSeen, if_pos hstale]
  · intro hfresh
    refine ⟨_, ?_, by rw [seen_addr_count, record_nSeen, if_neg hfresh], rfl⟩
    cases hg : (seen_addrs fl City Globals.init obs).st.seenIPs a with
    | none => simp
    | some r0 =>
      have := hinv a r0 hg
      simp only [Option.map_some', Option.getD_some]
      omega

/-- C14, amended, with `-p 3 -t 2`: a stale observation stores 0, one in time
stores 2. -/
theorem counts_never_negative_witness :
    (seen_addr ⟨"", 3, "", 2⟩ (fun _ => .error "no database")
      (seen_addrs ⟨"", 3, "", 2⟩ (fun _ => .error "no database") Globals.init
        [("1.2.3.4", Clock.instant 0)]).st "1.2.3.4" (Clock.instant 5)).st.count "1.2.3.4"
      = some 0 ∧
    ∃ n : Int, 1 ≤ n ∧
      (seen_addr ⟨"", 3, "", 2⟩ (fun _ => .error "no database")
        (seen_addrs ⟨"", 3, "", 2⟩ (fun _ => .error "no database") Globals.init
          [("1.2.3.4", Clock.instant 0)]).st "1.2.3.4" (Clock.instant 1)).st.count "1.2.3.4"
        = some n ∧
      n = (((seen_addrs ⟨"", 3, "", 2⟩ (fun _ => .error "no database") Globals.init
          [("1.2.3.4", Clock.instant 0)]).st.seenIPs "1.2.3.4").map seenIP.nSeen).getD 0 + 1 :=
  ⟨(counts_never_negative ⟨"", 3, "", 2⟩ (fun _ => .error "no database")
      [("1.2.3.4", Clock.instant 0)] "1.2.3.4" (Clock.instant 5)).2.1 (by decide),
   (counts_never_negative ⟨"", 3, "", 2⟩ (fun _ => .error "no database")
      [("1.2.3.4", Clock.instant 0)] "1.2.3.4" (Clock.instant 1)).2.2 (by decide)⟩

theorem seen_addrs_keeps (fl : Flags) (City : Lookup) :
    ∀ (obs : List (String × Clock)) (g : Globals) (x : String),
      g.seenIPs x ≠ none → (seen_addrs fl City g obs).st.seenIPs x ≠ none := by
  intro obs
  induction obs with
  | nil => intro g x h; exact h
  | cons ac rest ih =>
    obtain ⟨a, c⟩ := ac
    intro g x h
    have hstep : (seen_addr fl City g a c).st.seenIPs x ≠ none := by
      rw [seen_addr_seenIPs]
      by_cases hxa : x = a
      · rw [hxa, Function.update_same]; simp
      · rw [Function.update_noteq hxa]; exact h
    cases hp : (seen_addr fl City g a c).panicked with
    | true =>
      simp only [seen_addrs, hp, if_true]
      exact hstep
    | false =>
      simp only [seen_addrs, hp, Bool.false_eq_true, if_false]
      exact ih _ x hstep

/-- C15: after `seen_addr(a)`, whether or not `print_addr` is entered and
whatever the lookup answers, the map holds an entry for `a`, the entry of
every other address is what it was, and every address that had an entry still
has one; `print_addr` does not touch the map, and no sequence of observations
removes an entry. -/
theorem seen_addr_keeps_entries (fl : Flags) (City : Lookup) (g : Globals) (a : String)
    (c : Clock) :
    (seen_addr fl City g a c).st.seenIPs a ≠ none ∧
    (∀ x, x ≠ a → (seen_addr fl City g a c).st.seenIPs x = g.seenIPs x) ∧
    (∀ x, g.seenIPs x ≠ none → (seen_addr fl City g a c).st.seenIPs x ≠ none) ∧
    (print_addr City g a).st.seenIPs = g.seenIPs ∧
    (∀ (obs : List (String × Clock)) (x : String),
      g.seenIPs x ≠ none → (seen_addrs fl City g obs).st.seenIPs x ≠ none) := by
  refine ⟨?_, ?_, ?_, print_addr_seenIPs City g a, fun obs x => seen_addrs_keeps fl City obs g x⟩
  · rw [seen_addr_stored]; simp
  · intro x hx
    rw [seen_addr_seenIPs, Function.update_noteq hx]
  · intro x hx
    rw [seen_addr_seenIPs]
    by_cases hxa : x = a
    · rw [hxa, Function.update_same]; simp
    · rw [Function.update_noteq hxa]; exact hx

/-- C15 on a map with an entry for 8.8.8.8 and an observation of 1.2.3.4 that
logs a line. -/
theorem seen_addr_keeps_entries_witness :
    (seen_addr ⟨"", 1, "", 2⟩ (fun _ => .error "no database")
      ⟨fun x => if x = "8.8.8.8" then some ⟨"8.8.8.8", 7, 1⟩ else none, ""⟩
      "1.2.3.4" (Clock.instant 4)).st.seenIPs "8.8.8.8"
      = (if "8.8.8.8" = "8.8.8.8" then some ⟨"8.8.8.8", 7, 1⟩ else none) :=
  (seen_addr_keeps_entries ⟨"", 1, "", 2⟩ (fun _ => .error "no database")
    ⟨fun x => if x = "8.8.8.8" then some ⟨"8.8.8.8", 7, 1⟩ else none, ""⟩
    "1.2.3.4" (Clock.instant 4)).2.1 "8.8.8.8" (by decide)

/-! ### C16: a database that does not open -/

theorem print_addr_on_some (City : Lookup) (g : Globals) (a : String) :
    print_addr.on (some City) g a = print_addr City g a := rfl

theorem seen_addr_on_some (fl : Flags) (City : Lookup) (g : Globals) (a : String) (c : Clock) :
    seen_addr.on fl (some City) g a c = seen_addr fl City g a c := rfl

theorem ADDRS_on_some (fl : Flags) (City : Lookup) (ignoreRegex : List Regexp)
    (clock : Nat → Clock) :
    ∀ (addrs : List String) (g : Globals) (k : Nat),
      mymain.ADDRS.on fl (some City) ignoreRegex clock g addrs k
        = mymain.ADDRS fl City ignoreRegex clock g addrs k := by
  intro addrs
  induction addrs with
  | nil => intro g k; rfl
  | cons a addrs ih =>
    intro g k
    simp only [mymain.ADDRS.on, mymain.ADDRS, seen_addr_on_some, ih]

theorem line_on_some (fl : Flags) (City : Lookup) (ignoreRegex : List Regexp)
    (clock : Nat → Clock) (g : Globals) (l : String) :
    mymain.line.on fl (some City) ignoreRegex clock g l
      = mymain.line fl City ignoreRegex clock g l := by
  simp only [mymain.line.on, mymain.line, ADDRS_on_some]

theorem print_addr_on_none (g : Globals) (a : String) :
    print_addr.on none g a
      = if a = g.lastPrinted then ⟨g, [.print_addr a], false⟩
        else ⟨g, [.print_addr a], true⟩ := rfl

theorem seen_addr_on_none_emitted (fl : Flags) (g : Globals) (a : String) (c : Clock) :
    emitted (seen_addr.on fl none g a c).events = [] := by
  simp only [seen_addr.on, print_addr_on_none]
  split
  · split <;> rfl
  · rfl

theorem ADDRS_on_none_emitted (fl : Flags) (ignoreRegex : List Regexp) (clock : Nat → Clock) :
    ∀ (addrs : List String) (g : Globals) (k : Nat),
      emitted (mymain.ADDRS.on fl none ignoreRegex clock g addrs k).events = [] := by
  intro addrs
  induction addrs with
  | nil => intro g k; rfl
  | cons a addrs ih =>
    intro g k
    unfold mymain.ADDRS.on
    split
    · exact ih g k
    · simp only
      split
      · exact seen_addr_on_none_emitted fl g a (clock k)
      · simp only [emitted_append, seen_addr_on_none_emitted, ih, List.append_nil]

theorem line_on_none_emitted (fl : Flags) (ignoreRegex : List Regexp) (clock : Nat → Clock)
    (g : Globals) (l : String) :
    emitted (mymain.line.on fl none ignoreRegex clock g l).events = [] := by
  unfold mymain.line.on
  simp only
  split
  · rfl
  · exact ADDRS_on_none_emitted fl ignoreRegex clock _ g 0

theorem lines_none_emitted (fl : Flags) (ignoreRegex : List Regexp)
    (clock : Nat → Nat → Clock) :
    ∀ (lines : List String) (g : Globals) (n : Nat),
      emitted (mymain.lines fl none ignoreRegex clock g lines n).events = [] := by
  intro lines
  induction lines with
  | nil => intro g n; rfl
  | cons l ls ih =>
    intro g n
    unfold mymain.lines
    simp only
    split
    · exact line_on_none_emitted fl ignoreRegex (clock n) g l
    · simp only [emitted_append, line_on_none_emitted, ih, List.append_nil]

/-- C16 at a failing input: with a database that does not open, `-p 1`, the
default ignore list and the one line "IP 10.0.0.5 > 8.8.8.8", `mymain`
writes the "Could not open" message, stores count 1 for 8.8.8.8, enters
`print_addr` and ends there in the panic of the lookup: no line is logged and
`mymain` does not return.  For every run whose database does not open no line
is ever logged, and every call of `seen_addr` that reaches the threshold for an
address other than `lastPrinted` ends the process. -/
theorem failed_open_panics_at_first_emission :
    (mymain.ignoreRegex (Split "127.*,255.255.255.0,192.168.*,10\\..*" ',')).map
        (fun rs =>
          ((mymain ⟨"/nonexistent/GeoLite2-City.mmdb", 1,
              "127.*,255.255.255.0,192.168.*,10\\..*", 2000000000⟩ (some rs)
              (.error "no such file") (fun _ _ => Clock.instant 0)
              ["IP 10.0.0.5 > 8.8.8.8"] none).returned,
           (mymain ⟨"/nonexistent/GeoLite2-City.mmdb", 1,
              "127.*,255.255.255.0,192.168.*,10\\..*", 2000000000⟩ (some rs)
              (.error "no such file") (fun _ _ => Clock.instant 0)
              ["IP 10.0.0.5 > 8.8.8.8"] none).stdout,
           (mymain ⟨"/nonexistent/GeoLite2-City.mmdb", 1,
              "127.*,255.255.255.0,192.168.*,10\\..*", 2000000000⟩ (some rs)
              (.error "no such file") (fun _ _ => Clock.instant 0)
              ["IP 10.0.0.5 > 8.8.8.8"] none).events,
           (mymain ⟨"/nonexistent/GeoLite2-City.mmdb", 1,
              "127.*,255.255.255.0,192.168.*,10\\..*", 2000000000⟩ (some rs)
              (.error "no such file") (fun _ _ => Clock.instant 0)
              ["IP 10.0.0.5 > 8.8.8.8"] none).st.count "8.8.8.8"))
      = some (none, ["Could not open /nonexistent/GeoLite2-City.mmdb: no such file\n"],
          [.print_addr "8.8.8.8"], some 1) ∧
    (∀ (fl : Flags) (ignoreRegex : Option (List Regexp)) (e : String)
        (clock : Nat → Nat → Clock) (lines : List String) (err : Option ScanError),
      emitted (mymain fl ignoreRegex (.error e) clock lines err).events = []) ∧
    (∀ (fl : Flags) (g : Globals) (a : String) (c : Clock),
      (seen_addr.on fl none g a c).panicked
        = (decide (fl.printAfter = (seen_addr.record fl g a c).nSeen)
            && decide (a ≠ g.lastPrinted))) := by
  refine ⟨by decide, ?_, ?_⟩
  · intro fl ignoreRegex e clock lines err
    cases ignoreRegex with
    | none => rfl
    | some rs =>
      have h := lines_none_emitted fl rs clock lines Globals.init 0
      simp only [mymain]
      split
      · exact h
      · cases err with
        | none => exact h
        | some se => cases se <;> exact h
  · intro fl g a c
    simp only [seen_addr.on, print_addr_on_none]
    by_cases ht : fl.printAfter = (seen_addr.record fl g a c).nSeen
    · by_cases hl : a = g.lastPrinted
      · simp [ht, hl]
      · simp [ht, hl]
    · simp [ht]

/-! ### C17: what the address pattern extracts -/

theorem mem_eraseDups_loop (as : List Nat) :
    ∀ (bs : List Nat) (x : Nat), x ∈ List.eraseDups.loop as bs ↔ x ∈ as ∨ x ∈ bs := by
  induction as with
  | nil => intro bs x; simp [List.eraseDups.loop]
  | cons a as ih =>
    intro bs x
    unfold List.eraseDups.loop
    cases h : bs.elem a with
    | true =>
      have ha : a ∈ bs := by simpa using h
      simp only [ih, List.mem_cons]
      constructor
      · rintro (h1 | h1)
        · exact Or.inl (Or.inr h1)
        · exact Or.inr h1
      · rintro ((h1 | h1) | h1)
        · rw [h1]; exact Or.inr ha
        · exact Or.inl h1
        · exact Or.inr h1
    | false =>
      simp only [ih, List.mem_cons]
      constructor
      · rintro (h1 | h1 | h1)
        · exact Or.inl (Or.inr h1)
        · exact Or.inl (Or.inl h1)
        · exact Or.inr h1
      · rintro ((h1 | h1) | h1)
        · exact Or.inr (Or.inl h1)
        · exact Or.inl h1
        · exact Or.inr (Or.inr h1)

theorem mem_eraseDups (l : List Nat) (x : Nat) : x ∈ l.eraseDups ↔ x ∈ l := by
  simp [List.eraseDups, mem_eraseDups_loop]

theorem slice_self (s : List Char) (i : Nat) : slice s i i = [] := by
  simp [slice]

theorem slice_length (s : List Char) (i e : Nat) (he : e ≤ s.length) :
    (slice s i e).length = e - i := by
  simp only [slice, List.length_take, List.length_drop]
  omega

theorem slice_append (s : List Char) (i j e : Nat) (hij : i ≤ j) (hje : j ≤ e) :
    slice s i e = slice s i j ++ slice s j e := by
  have h1 : e - i = (j - i) + (e - j) := by omega
  have h2 : s.drop j = (s.drop i).drop (j - i) := by
    rw [List.drop_drop]
    congr 1
    omega
  simp only [slice]
  rw [h1, List.take_add, h2]

theorem slice_split (s : List Char) (i e : Nat) (u v : List Char) (hie : i ≤ e)
    (he : e ≤ s.length) (h : slice s i e = u ++ v) :
    i + u.length ≤ e ∧ slice s i (i + u.length) = u ∧ slice s (i + u.length) e = v := by
  have hlen : (slice s i e).length = e - i := slice_length s i e he
  rw [h, List.length_append] at hlen
  have hle : i + u.length ≤ e := by omega
  have happ := slice_append s i (i + u.length) e (by omega) hle
  rw [h] at happ
  have hl : u.length = (slice s i (i + u.length)).length := by
    rw [slice_length s i (i + u.length) (by omega)]
    omega
  obtain ⟨h1, h2⟩ := List.append_inj happ hl
  exact ⟨hle, h1.symm, h2.symm⟩

theorem slice_get (s : List Char) (i : Nat) (c : Char) (h : s.get? i = some c) :
    slice s i (i + 1) = [c] := by
  induction s generalizing i with
  | nil => simp at h
  | cons d s ih =>
    cases i with
    | zero =>
      simp only [List.get?_cons_zero, Option.some.injEq] at h
      simp [slice, h]
    | succ i =>
      simp only [List.get?_cons_succ] at h
      have := ih i h
      simpa [slice] using this

theorem slice_singleton (s : List Char) (i e : Nat) (c : Char) (hie : i ≤ e)
    (he : e ≤ s.length) (h : slice s i e = [c]) : e = i + 1 ∧ s.get? i = some c := by
  have hlen := slice_length s i e he
  rw [h] at hlen
  simp only [List.length_singleton] at hlen
  have he1 : e = i + 1 := by omega
  refine ⟨he1, ?_⟩
  subst he1
  have hi : i < s.length := by omega
  have hg : s.get? i = some (s.get ⟨i, hi⟩) := List.get?_eq_get hi
  have := slice_get s i _ hg
  rw [h] at this
  rw [hg, List.singleton_inj.mp this]

open Regexp in
theorem decides_congr (s : List Char) (m : Matcher) (P Q : List Char → Prop)
    (h : Matcher.Decides s m P) (hpq : ∀ w, P w ↔ Q w) : Matcher.Decides s m Q := by
  intro i e hi
  rw [h i e hi, hpq]

open Regexp in
theorem decides_eps (s : List Char) : Matcher.Decides s (fun i => [i]) (fun w => w = []) := by
  intro i e hi
  simp only [List.mem_singleton]
  constructor
  · intro h
    subst h
    exact ⟨le_refl _, hi, slice_self s e⟩
  · rintro ⟨h1, h2, h3⟩
    have := slice_length s i e h2
    rw [h3] at this
    simp only [List.length_nil] at this
    omega

open Regexp in
theorem decides_char (s : List Char) (p : Char → Bool) :
    Matcher.Decides s (Matcher.char s p) (fun w => ∃ c, w = [c] ∧ p c = true) := by
  intro i e hi
  unfold Matcher.char
  constructor
  · intro h
    split at h
    · rename_i c hc
      split at h
      · rename_i hp
        simp only [List.mem_singleton] at h
        subst h
        have hlt : i < s.length := by
          by_contra hcon
          rw [List.get?_eq_none.mpr (by omega)] at hc
          exact absurd hc (by simp)
        exact ⟨by omega, by omega, c, slice_get s i c hc, hp⟩
      · exact absurd h (List.not_mem_nil _)
    · exact absurd h (List.not_mem_nil _)
  · rintro ⟨h1, h2, c, h3, h4⟩
    obtain ⟨he, hg⟩ := slice_singleton s i e c h1 h2 h3
    rw [he, hg]
    simp [h4]

open Regexp in
theorem decides_seq (s : List Char) (m1 m2 : Matcher) (P1 P2 : List Char → Prop)
    (h1 : Matcher.Decides s m1 P1) (h2 : Matcher.Decides s m2 P2) :
    Matcher.Decides s (m1.seq m2) (fun w => ∃ u v, w = u ++ v ∧ P1 u ∧ P2 v) := by
  intro i e hi
  simp only [Matcher.seq, mem_eraseDups, List.mem_flatMap]
  constructor
  · rintro ⟨j, hj, hje⟩
    obtain ⟨a1, a2, a3⟩ := (h1 i j hi).mp hj
    obtain ⟨b1, b2, b3⟩ := (h2 j e a2).mp hje
    exact ⟨by omega, b2, slice s i j, slice s j e, slice_append s i j e a1 b1, a3, b3⟩
  · rintro ⟨hie, he, u, v, huv, hu, hv⟩
    obtain ⟨hle, hsu, hsv⟩ := slice_split s i e u v hie he huv
    refine ⟨i + u.length, ?_, ?_⟩
    · exact (h1 i (i + u.length) hi).mpr ⟨by omega, by omega, by rw [hsu]; exact hu⟩
    · exact (h2 (i + u.length) e (by omega)).mpr ⟨hle, he, by rw [hsv]; exact hv⟩

open Regexp in
theorem decides_or (s : List Char) (m1 m2 : Matcher) (P1 P2 : List Char → Prop)
    (h1 : Matcher.Decides s m1 P1) (h2 : Matcher.Decides s m2 P2) :
    Matcher.Decides s (m1.or m2) (fun w => P1 w ∨ P2 w) := by
  intro i e hi
  simp only [Matcher.or, mem_eraseDups, List.mem_append, h1 i e hi, h2 i e hi]
  tauto

theorem isDigit_iff (c : Char) :
    c.isDigit = true ↔ c ∈ ['0', '1', '2', '3', '4', '5', '6', '7', '8', '9'] := by
  constructor
  · intro h
    have h2 : 48 ≤ c.toNat ∧ c.toNat ≤ 57 := by
      simp only [Char.isDigit, Bool.and_eq_true, decide_eq_true_eq] at h
      exact ⟨h.1, h.2⟩
    have hc : c = Char.ofNat c.toNat := (Char.ofNat_toNat c).symm
    obtain ⟨h3, h4⟩ := h2
    rw [hc]
    interval_cases c.toNat <;> decide
  · intro h
    simp only [List.mem_cons, List.mem_singleton, List.not_mem_nil, or_false] at h
    rcases h with h | h | h | h | h | h | h | h | h | h <;> rw [h] <;> rfl

theorem split_digits_exact (w : List Char) (a b : Nat) (D : Char → Prop) :
    (∃ u v, w = u ++ v ∧ (u.length = a ∧ ∀ c ∈ u, D c) ∧ (v.length = b ∧ ∀ c ∈ v, D c))
      ↔ (w.length = a + b ∧ ∀ c ∈ w, D c) := by
  constructor
  · rintro ⟨u, v, hw, ⟨hu1, hu2⟩, ⟨hv1, hv2⟩⟩
    subst hw
    refine ⟨by simp [hu1, hv1], ?_⟩
    intro c hc
    rcases List.mem_append.mp hc with h | h
    · exact hu2 c h
    · exact hv2 c h
  · rintro ⟨h1, h2⟩
    refine ⟨w.take a, w.drop a, (List.take_append_drop a w).symm, ⟨?_, ?_⟩, ⟨?_, ?_⟩⟩
    · simp only [List.length_take]; omega
    · exact fun c hc => h2 c (List.mem_of_mem_take hc)
    · simp only [List.length_drop]; omega
    · exact fun c hc => h2 c (List.mem_of_mem_drop hc)

theorem split_digits_upto (w : List Char) (a b : Nat) (D : Char → Prop) :
    (∃ u v, w = u ++ v ∧ (u.length = a ∧ ∀ c ∈ u, D c) ∧ (v.length ≤ b ∧ ∀ c ∈ v, D c))
      ↔ (a ≤ w.length ∧ w.length ≤ a + b ∧ ∀ c ∈ w, D c) := by
  constructor
  · rintro ⟨u, v, hw, ⟨hu1, hu2⟩, ⟨hv1, hv2⟩⟩
    subst hw
    refine ⟨by simp [hu1], by simp only [List.length_append]; omega, ?_⟩
    intro c hc
    rcases List.mem_append.mp hc with h | h
    · exact hu2 c h
    · exact hv2 c h
  · rintro ⟨h0, h1, h2⟩
    refine ⟨w.take a, w.drop a, (List.take_append_drop a w).symm, ⟨?_, ?_⟩, ⟨?_, ?_⟩⟩
    · simp only [List.length_take]; omega
    · exact fun c hc => h2 c (List.mem_of_mem_take hc)
    · simp only [List.length_drop]; omega
    · exact fun c hc => h2 c (List.mem_of_mem_drop hc)

open Regexp in
theorem decides_digit (s : List Char) :
    Matcher.Decides s (ends s .digit)
      (fun w => w.length = 1 ∧
        ∀ c ∈ w, c ∈ ['0', '1', '2', '3', '4', '5', '6', '7', '8', '9']) := by
  refine decides_congr s _ _ _ (decides_char s Char.isDigit) ?_
  intro w
  constructor
  · rintro ⟨c, hw, hc⟩
    subst hw
    refine ⟨rfl, ?_⟩
    intro d hd
    rw [List.mem_singleton.mp hd]
    exact (isDigit_iff c).mp hc
  · rintro ⟨h1, h2⟩
    obtain ⟨c, hc⟩ := List.length_eq_one.mp h1
    subst hc
    exact ⟨c, rfl, (isDigit_iff c).mpr (h2 c (List.mem_singleton_self c))⟩

open Regexp in
theorem decides_times (s : List Char) (m : Matcher) (D : Char → Prop)
    (hm : Matcher.Decides s m (fun w => w.length = 1 ∧ ∀ c ∈ w, D c)) :
    ∀ k, Matcher.Decides s (m.times k) (fun w => w.length = k ∧ ∀ c ∈ w, D c) := by
  intro k
  induction k with
  | zero =>
    refine decides_congr s _ _ _ (decides_eps s) ?_
    intro w
    constructor
    · intro h; subst h; simp
    · rintro ⟨h, -⟩; exact List.length_eq_zero.mp h
  | succ k ih =>
    refine decides_congr s _ _ _ (decides_seq s m (m.times k) _ _ hm ih) ?_
    intro w
    rw [split_digits_exact w 1 k D, Nat.add_comm 1 k]

open Regexp in
theorem decides_upTo (s : List Char) (m : Matcher) (D : Char → Prop)
    (hm : Matcher.Decides s m (fun w => w.length = 1 ∧ ∀ c ∈ w, D c)) :
    ∀ k, Matcher.Decides s (m.upTo k) (fun w => w.length ≤ k ∧ ∀ c ∈ w, D c) := by
  intro k
  induction k with
  | zero =>
    refine decides_congr s _ _ _ (decides_eps s) ?_
    intro w
    constructor
    · intro h; subst h; simp
    · rintro ⟨h, -⟩; exact List.length_eq_zero.mp (Nat.le_zero.mp h)
  | succ k ih =>
    refine decides_congr s _ _ _
      (decides_or s _ _ _ _ (decides_seq s m (m.upTo k) _ _ hm ih) (decides_eps s)) ?_
    intro w
    rw [split_digits_upto w 1 k D]
    constructor
    · rintro (⟨-, h2, h3⟩ | h)
      · exact ⟨by omega, h3⟩
      · subst h; simp
    · rintro ⟨h1, h2⟩
      cases w with
      | nil => exact Or.inr rfl
      | cons c w =>
        left
        simp only [List.length_cons] at h1 ⊢
        exact ⟨by omega, by omega, h2⟩

open Regexp in
theorem decides_group (s : List Char) :
    Matcher.Decides s (ends s (.rep .digit 1 (some 3))) IsGroup := by
  have h := decides_seq s _ _ _ _ (decides_times s _ _ (decides_digit s) 1)
    (decides_upTo s _ _ (decides_digit s) 2)
  refine decides_congr s _ _ _ h ?_
  intro w
  rw [split_digits_upto w 1 2]
  rfl

open Regexp in
theorem decides_dot (s : List Char) :
    Matcher.Decides s (ends s (.literal '.')) (fun w => w = ['.']) := by
  refine decides_congr s _ _ _ (decides_char s (fun d => decide (d = '.'))) ?_
  intro w
  constructor
  · rintro ⟨c, hw, hc⟩
    rw [hw, of_decide_eq_true hc]
  · intro h
    exact ⟨'.', h, by simp⟩

open Regexp in
theorem decides_ADDRRE (s : List Char) : Matcher.Decides s (ends s ADDRRE) IsDottedQuad := by
  have hg := decides_group s
  have hd := decides_dot s
  have h := decides_seq s _ _ _ _ (decides_seq s _ _ _ _ (decides_seq s _ _ _ _
    (decides_seq s _ _ _ _ (decides_seq s _ _ _ _ (decides_seq s _ _ _ _ hg hd) hg) hd) hg) hd) hg
  refine decides_congr s _ _ _ h ?_
  intro w
  constructor
  · rintro ⟨u6, g4, hw, ⟨u5, d3, h6, ⟨u4, g3, h5, ⟨u3, d2, h4, ⟨u2, g2, h3, ⟨g1, d1, h2, hg1,
      hd1⟩, hg2⟩, hd2⟩, hg3⟩, hd3⟩, hg4⟩
    refine ⟨g1, g2, g3, g4, hg1, hg2, hg3, hg4, ?_⟩
    subst hd1 hd2 hd3
    subst h2 h3 h4 h5 h6
    rw [hw]
    simp [List.append_assoc]
  · rintro ⟨g1, g2, g3, g4, hg1, hg2, hg3, hg4, hw⟩
    refine ⟨_, g4, ?_, ⟨_, ['.'], rfl, ⟨_, g3, rfl, ⟨_, ['.'], rfl, ⟨_, g2, rfl,
      ⟨g1, ['.'], rfl, hg1, rfl⟩, hg2⟩, rfl⟩, hg3⟩, rfl⟩, hg4⟩
    rw [hw]
    simp [List.append_assoc]

theorem dottedQuad_length (w : List Char) (h : IsDottedQuad w) :
    7 ≤ w.length ∧ w.length ≤ 15 := by
  obtain ⟨g1, g2, g3, g4, ⟨a1, a2, -⟩, ⟨b1, b2, -⟩, ⟨c1, c2, -⟩, ⟨d1, d2, -⟩, hw⟩ := h
  subst hw
  simp only [List.length_append, List.length_cons]
  omega

theorem eraseDups_loop_start (as : List Nat) :
    ∀ bs : List Nat, ∃ t, List.eraseDups.loop as bs = bs.reverse ++ t := by
  induction as with
  | nil => intro bs; exact ⟨[], by simp [List.eraseDups.loop]⟩
  | cons a as ih =>
    intro bs
    unfold List.eraseDups.loop
    cases h : bs.elem a with
    | true => exact ih bs
    | false =>
      obtain ⟨t, ht⟩ := ih (a :: bs)
      exact ⟨a :: t, by simp [ht]⟩

theorem head?_eraseDups (l : List Nat) : l.eraseDups.head? = l.head? := by
  cases l with
  | nil => rfl
  | cons a as =>
    obtain ⟨t, ht⟩ := eraseDups_loop_start as [a]
    have h : (a :: as).eraseDups = List.eraseDups.loop as [a] := by
      simp [List.eraseDups, List.eraseDups.loop]
    rw [h, ht]
    rfl

theorem eraseDups_loop_of_pairwise (as : List Nat) :
    ∀ bs : List Nat, as.Pairwise (· > ·) → (∀ a ∈ as, a ∉ bs) →
      List.eraseDups.loop as bs = bs.reverse ++ as := by
  induction as with
  | nil => intro bs _ _; simp [List.eraseDups.loop]
  | cons a as ih =>
    intro bs hp hn
    unfold List.eraseDups.loop
    have ha : bs.elem a = false := by
      have := hn a (List.mem_cons_self _ _)
      simpa using this
    rw [ha]
    obtain ⟨hp1, hp2⟩ := List.pairwise_cons.mp hp
    simp only
    rw [ih (a :: bs) hp2]
    · simp
    · intro x hx hxb
      rcases List.mem_cons.mp hxb with h | h
      · have := hp1 x hx
        omega
      · exact hn x (List.mem_cons_of_mem _ hx) h

theorem eraseDups_of_pairwise (l : List Nat) (h : l.Pairwise (· > ·)) : l.eraseDups = l := by
  have := eraseDups_loop_of_pairwise l [] h (by simp)
  simpa [List.eraseDups] using this

theorem head?_flatMap_same (f : Nat → List Nat) (j : Nat) :
    ∀ L : List Nat, (∀ x ∈ L, x = j) → L ≠ [] → (L.flatMap f).head? = (f j).head? := by
  intro L
  induction L with
  | nil => intro _ h; exact absurd rfl h
  | cons x L ih =>
    intro hall _
    have hx : x = j := hall x (List.mem_cons_self _ _)
    subst hx
    rw [List.flatMap_cons]
    cases hf : f x with
    | nil =>
      have hrest : L.flatMap f = [] := by
        rw [List.flatMap_eq_nil_iff]
        intro y hy
        rw [hall y (List.mem_cons_of_mem _ hy)]
        exact hf
      rw [hrest]
      rfl
    | cons a t => rfl

theorem head_max_of_pairwise (l : List Nat) (e : Nat) (hp : l.Pairwise (· > ·))
    (h : l.head? = some e) : ∀ x ∈ l, x ≤ e := by
  cases l with
  | nil => simp at h
  | cons a t =>
    simp only [List.head?_cons, Option.some.injEq] at h
    subst h
    intro x hx
    rcases List.mem_cons.mp hx with hx | hx
    · omega
    · have := (List.pairwise_cons.mp hp).1 x hx
      omega

open Regexp in
theorem char_single (s : List Char) (p : Char → Bool) (i : Nat) :
    Matcher.char s p i = [] ∨ Matcher.char s p i = [i + 1] := by
  unfold Matcher.char
  split
  · split
    · exact Or.inr rfl
    · exact Or.inl rfl
  · exact Or.inl rfl

open Regexp in
theorem seq_single_desc (m1 m2 : Matcher)
    (h1 : ∀ i, m1 i = [] ∨ m1 i = [i + 1])
    (h2 : ∀ i, (m2 i).Pairwise (· > ·) ∧ ∀ e ∈ m2 i, i ≤ e) :
    ∀ i, ((m1.seq m2) i).Pairwise (· > ·) ∧ ∀ e ∈ (m1.seq m2) i, i < e := by
  intro i
  rcases h1 i with h | h
  · simp [Matcher.seq, h, List.eraseDups, List.eraseDups.loop]
  · obtain ⟨k1, k2⟩ := h2 (i + 1)
    have hseq : (m1.seq m2) i = m2 (i + 1) := by
      simp only [Matcher.seq, h, List.flatMap_cons, List.flatMap_nil, List.append_nil]
      exact eraseDups_of_pairwise _ k1
    rw [hseq]
    refine ⟨k1, ?_⟩
    intro e he
    have := k2 e he
    omega

open Regexp in
theorem or_eps_desc (m : Matcher)
    (h : ∀ i, (m i).Pairwise (· > ·) ∧ ∀ e ∈ m i, i < e) :
    ∀ i, ((m.or (fun i => [i])) i).Pairwise (· > ·) ∧ ∀ e ∈ (m.or (fun i => [i])) i, i ≤ e := by
  intro i
  obtain ⟨k1, k2⟩ := h i
  have hp : (m i ++ [i]).Pairwise (· > ·) := by
    rw [List.pairwise_append]
    refine ⟨k1, List.pairwise_singleton _ _, ?_⟩
    intro a ha b hb
    rw [List.mem_singleton.mp hb]
    exact k2 a ha
  have hor : (m.or (fun i => [i])) i = m i ++ [i] := by
    simp only [Matcher.or]
    exact eraseDups_of_pairwise _ hp
  rw [hor]
  refine ⟨hp, ?_⟩
  intro e he
  rcases List.mem_append.mp he with h1 | h1
  · have := k2 e h1
    omega
  · rw [List.mem_singleton.mp h1]

open Regexp in
theorem upTo_desc (m : Matcher) (h1 : ∀ i, m i = [] ∨ m i = [i + 1]) :
    ∀ k i, ((m.upTo k) i).Pairwise (· > ·) ∧ ∀ e ∈ (m.upTo k) i, i ≤ e := by
  intro k
  induction k with
  | zero => intro i; simp [Matcher.upTo]
  | succ k ih => exact or_eps_desc _ (seq_single_desc m (m.upTo k) h1 ih)

open Regexp in
theorem times_one_single (m : Matcher) (h1 : ∀ i, m i = [] ∨ m i = [i + 1]) :
    ∀ i, (m.times 1) i = [] ∨ (m.times 1) i = [i + 1] := by
  intro i
  rcases h1 i with h | h
  · left
    simp [Matcher.times, Matcher.seq, h, List.eraseDups, List.eraseDups.loop]
  · right
    simp [Matcher.times, Matcher.seq, h, List.eraseDups, List.eraseDups.loop]

open Regexp in
theorem group_desc (s : List Char) (i : Nat) :
    (ends s (.rep .digit 1 (some 3)) i).Pairwise (· > ·) :=
  (seq_single_desc _ _ (times_one_single _ (char_single s Char.isDigit))
    (upTo_desc _ (char_single s Char.isDigit) 2) i).1

theorem digits_dot_unique :
    ∀ (g g2 r r2 : List Char), (∀ c ∈ g, c ≠ '.') → (∀ c ∈ g2, c ≠ '.') →
      g ++ '.' :: r = g2 ++ '.' :: r2 → g = g2 ∧ r = r2 := by
  intro g
  induction g with
  | nil =>
    intro g2 r r2 _ h2 h
    cases g2 with
    | nil => simpa using h
    | cons c g2 =>
      simp only [List.nil_append, List.cons_append, List.cons.injEq] at h
      exact absurd h.1.symm (h2 c (List.mem_cons_self _ _))
  | cons d g ih =>
    intro g2 r r2 h1 h2 h
    cases g2 with
    | nil =>
      simp only [List.nil_append, List.cons_append, List.cons.injEq] at h
      exact absurd h.1 (h1 d (List.mem_cons_self _ _))
    | cons c g2 =>
      simp only [List.cons_append, List.cons.injEq] at h
      obtain ⟨k1, k2⟩ := ih g2 r r2 (fun c hc => h1 c (List.mem_cons_of_mem _ hc))
        (fun c hc => h2 c (List.mem_cons_of_mem _ hc)) h.2
      exact ⟨by rw [h.1, k1], k2⟩

theorem group_no_dot (g : List Char) (h : IsGroup g) : ∀ c ∈ g, c ≠ '.' := by
  intro c hc hdot
  have := h.2.2 c hc
  rw [hdot] at this
  revert this
  decide

theorem three_groups_unique (w t : List Char) (h1 : IsThreeGroups w)
    (h2 : IsThreeGroups (w ++ t)) : t = [] := by
  obtain ⟨a1, a2, a3, ha1, ha2, ha3, hw⟩ := h1
  obtain ⟨b1, b2, b3, hb1, hb2, hb3, hwt⟩ := h2
  rw [hw] at hwt
  simp only [List.append_assoc, List.cons_append, List.nil_append] at hwt
  obtain ⟨-, k1⟩ := digits_dot_unique _ _ _ _ (group_no_dot a1 ha1) (group_no_dot b1 hb1) hwt
  obtain ⟨-, k2⟩ := digits_dot_unique _ _ _ _ (group_no_dot a2 ha2) (group_no_dot b2 hb2) k1
  obtain ⟨-, k3⟩ := digits_dot_unique _ _ _ _ (group_no_dot a3 ha3) (group_no_dot b3 hb3) k2
  exact k3

open Regexp in
theorem decides_three_groups (s : List Char) :
    Matcher.Decides s
      (ends s (.concat (.concat (.concat (.concat (.concat
        (.rep .digit 1 (some 3)) (.literal '.')) (.rep .digit 1 (some 3))) (.literal '.'))
        (.rep .digit 1 (some 3))) (.literal '.')))
      IsThreeGroups := by
  have hg := decides_group s
  have hd := decides_dot s
  have h := decides_seq s _ _ _ _ (decides_seq s _ _ _ _ (decides_seq s _ _ _ _
    (decides_seq s _ _ _ _ (decides_seq s _ _ _ _ hg hd) hg) hd) hg) hd
  refine decides_congr s _ _ _ h ?_
  intro w
  constructor
  · rintro ⟨u5, d3, h6, ⟨u4, g3, h5, ⟨u3, d2, h4, ⟨u2, g2, h3, ⟨g1, d1, h2, hg1,
      hd1⟩, hg2⟩, hd2⟩, hg3⟩, hd3⟩
    refine ⟨g1, g2, g3, hg1, hg2, hg3, ?_⟩
    subst hd1 hd2 hd3
    subst h2 h3 h4 h5
    rw [h6]
    simp [List.append_assoc]
  · rintro ⟨g1, g2, g3, hg1, hg2, hg3, hw⟩
    refine ⟨_, ['.'], ?_, ⟨_, g3, rfl, ⟨_, ['.'], rfl, ⟨_, g2, rfl,
      ⟨g1, ['.'], rfl, hg1, rfl⟩, hg2⟩, rfl⟩, hg3⟩, rfl⟩
    rw [hw]
    simp [List.append_assoc]

open Regexp in
theorem ADDRRE_head_longest (s : List Char) (b e : Nat) (hb : b ≤ s.length)
    (h : (ends s ADDRRE b).head? = some e) : ∀ e2 ∈ ends s ADDRRE b, e2 ≤ e := by
  intro e2 he2
  have hends : ends s ADDRRE b
      = ((ends s (.concat (.concat (.concat (.concat (.concat
          (.rep .digit 1 (some 3)) (.literal '.')) (.rep .digit 1 (some 3))) (.literal '.'))
          (.rep .digit 1 (some 3))) (.literal '.')) b).flatMap
          (ends s (.rep .digit 1 (some 3)))).eraseDups := rfl
  rw [hends] at h he2
  rw [mem_eraseDups, List.mem_flatMap] at he2
  obtain ⟨j, hj, hje⟩ := he2
  obtain ⟨j1, j2, j3⟩ := (decides_three_groups s b j hb).mp hj
  have hall : ∀ x ∈ ends s (.concat (.concat (.concat (.concat (.concat
      (.rep .digit 1 (some 3)) (.literal '.')) (.rep .digit 1 (some 3))) (.literal '.'))
      (.rep .digit 1 (some 3))) (.literal '.')) b, x = j := by
    intro x hx
    obtain ⟨x1, x2, x3⟩ := (decides_three_groups s b x hb).mp hx
    rcases le_total x j with hle | hle
    · have happ := slice_append s b x j x1 hle
      rw [happ] at j3
      have ht := three_groups_unique _ _ x3 j3
      have hl := slice_length s x j j2
      rw [ht] at hl
      simp only [List.length_nil] at hl
      omega
    · have happ := slice_append s b j x j1 hle
      rw [happ] at x3
      have ht := three_groups_unique _ _ j3 x3
      have hl := slice_length s j x x2
      rw [ht] at hl
      simp only [List.length_nil] at hl
      omega
  rw [head?_eraseDups, head?_flatMap_same _ j _ hall (List.ne_nil_of_mem hj)] at h
  exact head_max_of_pairwise _ e (group_desc s j) h e2 hje

open Regexp in
theorem search_some (re : Regexp) (s : List Char) :
    ∀ (fuel pos b e : Nat), search re s fuel pos = some (b, e) →
      pos ≤ b ∧ b < pos + fuel ∧ (ends s re b).head? = some e ∧
        ∀ p, pos ≤ p → p < b → ends s re p = [] := by
  intro fuel
  induction fuel with
  | zero => intro pos b e h; simp [search] at h
  | succ fuel ih =>
    intro pos b e h
    unfold search at h
    split at h
    · rename_i e0 rest hends
      simp only [Option.some.injEq, Prod.mk.injEq] at h
      obtain ⟨hb, he⟩ := h
      subst hb he
      refine ⟨le_refl _, by omega, by rw [hends]; rfl, ?_⟩
      intro p h1 h2
      omega
    · rename_i hends
      obtain ⟨h1, h2, h3, h4⟩ := ih (pos + 1) b e h
      refine ⟨by omega, by omega, h3, ?_⟩
      intro p hp1 hp2
      by_cases hpp : p = pos
      · rw [hpp]; exact hends
      · exact h4 p (by omega) hp2

open Regexp in
theorem search_none (re : Regexp) (s : List Char) :
    ∀ (fuel pos : Nat), search re s fuel pos = none →
      ∀ p, pos ≤ p → p < pos + fuel → ends s re p = [] := by
  intro fuel
  induction fuel with
  | zero => intro pos _ p h1 h2; omega
  | succ fuel ih =>
    intro pos h p h1 h2
    unfold search at h
    split at h
    · exact absurd h (by simp)
    · rename_i hends
      by_cases hpp : p = pos
      · rw [hpp]; exact hends
      · exact ih (pos + 1) h p (by omega) (by omega)

open Regexp in
theorem not_startsQuad_of_nil (s : List Char) (p : Nat) (hp : p ≤ s.length)
    (h : ends s ADDRRE p = []) : ¬ StartsQuad s p := by
  rintro ⟨e, h1, h2, h3⟩
  have := (decides_ADDRRE s p e hp).mpr ⟨h1, h2, h3⟩
  rw [h] at this
  exact absurd this (List.not_mem_nil _)

theorem not_startsQuad_beyond (s : List Char) (p : Nat) (hp : s.length < p) :
    ¬ StartsQuad s p := by
  rintro ⟨e, h1, h2, -⟩
  omega

open Regexp in
theorem allMatches_leftmost (s : List Char) :
    ∀ (fuel pos : Nat) (prev : Option Nat), s.length + 2 ≤ fuel + pos →
      LeftmostFrom s pos (allMatches ADDRRE s fuel pos prev) := by
  intro fuel
  induction fuel with
  | zero =>
    intro pos prev h
    simp only [allMatches, LeftmostFrom]
    intro p hp
    exact not_startsQuad_beyond s p (by omega)
  | succ fuel ih =>
    intro pos prev h
    unfold allMatches
    by_cases hpos : pos ≤ s.length
    · rw [if_pos hpos]
      cases hf : find ADDRRE s pos with
      | none =>
        simp only [LeftmostFrom]
        intro p hp
        by_cases hpn : p ≤ s.length
        · exact not_startsQuad_of_nil s p hpn
            (search_none ADDRRE s _ pos hf p hp (by omega))
        · exact not_startsQuad_beyond s p (by omega)
      | some be =>
        obtain ⟨b, e⟩ := be
        obtain ⟨h1, h2, h3, h4⟩ := search_some ADDRRE s _ pos b e hf
        have hb : b ≤ s.length := by omega
        have h3m : e ∈ ends s ADDRRE b := List.mem_of_mem_head? h3
        obtain ⟨k1, k2, k3⟩ := (decides_ADDRRE s b e hb).mp h3m
        have hlen := dottedQuad_length _ k3
        rw [slice_length s b e k2] at hlen
        have hne : ¬ e = pos := by omega
        simp only [hne, if_false, LeftmostFrom]
        refine ⟨h1, k1, k2, k3, ?_, ?_, ih e (some e) (by omega)⟩
        · intro p hp1 hp2
          exact not_startsQuad_of_nil s p (by omega) (h4 p hp1 hp2)
        · intro e2 q1 q2 q3
          exact ADDRRE_head_longest s b e hb h3 e2
            ((decides_ADDRRE s b e2 hb).mpr ⟨q1, q2, q3⟩)
    · rw [if_neg hpos]
      simp only [LeftmostFrom]
      intro p hp
      exact not_startsQuad_beyond s p (by omega)

theorem leftmost_mem (s : List Char) :
    ∀ (ms : List (Nat × Nat)) (pos : Nat), LeftmostFrom s pos ms →
      ∀ m ∈ ms, m.2 ≤ s.length ∧ IsDottedQuad (slice s m.1 m.2) := by
  intro ms
  induction ms with
  | nil => intro pos _ m hm; exact absurd hm (List.not_mem_nil _)
  | cons be rest ih =>
    obtain ⟨b, e⟩ := be
    intro pos h m hm
    simp only [LeftmostFrom] at h
    obtain ⟨-, -, h3, h4, -, -, h6⟩ := h
    rcases List.mem_cons.mp hm with hm | hm
    · rw [hm]; exact ⟨h3, h4⟩
    · exact ih e h6 m hm

/-- C17: for every input line, every substring extracted by the address
pattern consists of exactly four groups of one to three ASCII digits
separated by single dots, so its length is between 7 and 15; the substrings
extracted are, from left to right, the longest dotted quad at the first
position where one starts, then the longest one at the first such position at
or after the end of the previous one, and so on until none starts any more; no
range check is made:
the line "999.999.999.999" yields exactly "999.999.999.999". -/
theorem ADDRRE_extracts_dotted_quads (l : String) :
    (∀ x ∈ ADDRRE.FindAllString l, IsDottedQuad x.data ∧ 7 ≤ x.length ∧ x.length ≤ 15) ∧
    (∃ ms : List (Nat × Nat), LeftmostFrom l.data 0 ms ∧
      ADDRRE.FindAllString l = ms.map (fun m => String.mk (slice l.data m.1 m.2))) ∧
    ADDRRE.FindAllString "999.999.999.999" = ["999.999.999.999"] := by
  have hleft := allMatches_leftmost l.data (l.length + 2) 0 none (Nat.le_refl _)
  refine ⟨?_, ⟨_, hleft, rfl⟩, by decide⟩
  intro x hx
  simp only [Regexp.FindAllString, List.mem_map] at hx
  obtain ⟨m, hm, hxm⟩ := hx
  obtain ⟨-, hq⟩ := leftmost_mem l.data _ 0 hleft m hm
  have hd : x.data = slice l.data m.1 m.2 := by rw [← hxm]; rfl
  rw [String.length, hd]
  exact ⟨hq, dottedQuad_length _ hq⟩

/-- C17 on a line of tcpdump output: the first address extracted is a dotted
quad. -/
theorem ADDRRE_extracts_dotted_quads_witness :
    IsDottedQuad "10.0.0.5".data ∧ 7 ≤ "10.0.0.5".length ∧ "10.0.0.5".length ≤ 15 :=
  (ADDRRE_extracts_dotted_quads "IP 10.0.0.5.22 > 8.8.8.8.53: x").1 "10.0.0.5" (by decide)

end Tcpdumplocator
